import Mathlib

/-!
The module `SendContactFlowEvent.js`

A verification development for the Lambda handler of `src/SendContactFlowEvent.js`:

```
const aws = require("aws-sdk");
const kinesis = new aws.Kinesis();
exports.handler = async (event) => {
    return await kinesis.putRecord(
        { Data: JSON.stringify(event),
          PartitionKey: "SendContactFlowEventKey",
          StreamName: process.env.STREAM_NAME }).promise();
};
```

The handler is embedded as a function on an explicit world state (the process
environment and the log of `putRecord` requests issued so far).  The language
built-ins it calls, `JSON.stringify` and (for the round trip) `JSON.parse`, are
embedded after ECMA-262 (sections 25.5.1 and 25.5.2); the Kinesis client is a
parameter.
-/

namespace SendContactFlowEvent

/-! ## ECMAScript values -/

/-- Number values.  A finite double other than zero is given by its sign and the
integers `s` and `n` of Number::toString: `s` holds the digits of the shortest
decimal that denotes it (at least 1, not divisible by 10) and the value is
`s * 10 ^ (n - k)`, `k` the number of digits of `s`: `1.5` is `finite false 15 1`,
`-120` is `finite true 12 3`, `1e21` is `finite false 1 22`.  `zero false` and
`zero true` are the two zeros, `nan`, `posInf` and `negInf` the three
non-finite values.  Every finite double is one such value and distinct doubles
are distinct values.  Which pairs `s`, `n` are doubles is a matter of binary
floating point that the embedding leaves open: `wellFormed` bounds them. -/
inductive JSNumber
  | zero (negative : Bool)
  | finite (negative : Bool) (s : Nat) (n : Int)
  | nan
  | posInf
  | negInf
  deriving DecidableEq, Repr

/-- An ECMAScript value as `JSON.stringify` traverses it from the root: the
unfolding of the object graph along own enumerable string-keyed data
properties.  `array` lists the elements by index (a hole reads as
`undefined`), `object` lists the properties of a plain object in property
enumeration order, `function ref` is a callable object and `circular up` is an
edge back to the object or array `up` levels above on the path from the root
(the object graph has a cycle there).  Strings are sequences of Unicode scalar
values (no lone surrogates).  Objects with a `toJSON` method, accessor
properties, proxies and wrapper objects are outside this embedding. -/
inductive JSValue
  | undefined
  | null
  | bool (b : Bool)
  | number (n : JSNumber)
  | string (s : String)
  | bigint (i : Int)
  | symbol (ref : Nat)
  | function (ref : Nat)
  | array (elems : List JSValue)
  | object (props : List (String × JSValue))
  | circular (up : Nat)

/-- A thrown value (the reason of a rejected promise): the TypeError that
`JSON.stringify` raises, and an error of the AWS SDK client. -/
inductive JSError
  | TypeError (message : String)
  | AWSError (code : String) (message : String)
  deriving DecidableEq, Repr

/-! ## JSON.stringify (ECMA-262 25.5.2, no replacer, no gap) -/

/-- The value is a finite number. -/
def JSNumber.isFinite : JSNumber → Bool
  | .zero _ => true
  | .finite _ _ _ => true
  | _ => false

/-- A run of zeros. -/
def zeros (j : Nat) : List Char :=
  List.replicate j '0'

/-- Number::toString, steps 6 to 10, for the positive double of digits `s` and
exponent `n`: plain digits, digits around a decimal point, or one digit, the
others after a decimal point, and an exponent. -/
def positiveToString (s : Nat) (n : Int) : List Char :=
  let digits := Nat.toDigits 10 s
  let k : Int := digits.length
  if k ≤ n ∧ n ≤ 21 then digits ++ zeros (n - k).toNat
  else if 0 < n ∧ n ≤ 21 then digits.take n.toNat ++ '.' :: digits.drop n.toNat
  else if -6 < n ∧ n ≤ 0 then '0' :: '.' :: (zeros (-n).toNat ++ digits)
  else
    match digits with
    | [] => []
    | [d] => d :: 'e' :: (if n - 1 < 0 then '-' else '+') :: Nat.toDigits 10 (n - 1).natAbs
    | d :: d1 :: ds =>
      d :: '.' :: (d1 :: ds ++
        'e' :: (if n - 1 < 0 then '-' else '+') :: Nat.toDigits 10 (n - 1).natAbs)

/-- Number::toString in radix 10. -/
def numberToString : JSNumber → List Char
  | .zero _ => ['0']
  | .finite negative s n =>
    if negative then '-' :: positiveToString s n else positiveToString s n
  | .nan => ['N', 'a', 'N']
  | .posInf => ['I', 'n', 'f', 'i', 'n', 'i', 't', 'y']
  | .negInf => ['-', 'I', 'n', 'f', 'i', 'n', 'i', 't', 'y']

/-- UnicodeEscape: a backslash, `u` and four lower-case hexadecimal digits. -/
def unicodeEscape (n : Nat) : List Char :=
  ['\\', 'u', Nat.digitChar (n / 4096 % 16), Nat.digitChar (n / 256 % 16),
    Nat.digitChar (n / 16 % 16), Nat.digitChar (n % 16)]

/-- One code point of QuoteJSONString: the seven two-character escapes of the
table, a `\uXXXX` escape for the other control characters, the character
itself otherwise. -/
def escapeChar (c : Char) : List Char :=
  if c = Char.ofNat 8 then ['\\', 'b']
  else if c = Char.ofNat 9 then ['\\', 't']
  else if c = Char.ofNat 10 then ['\\', 'n']
  else if c = Char.ofNat 12 then ['\\', 'f']
  else if c = Char.ofNat 13 then ['\\', 'r']
  else if c = '"' then ['\\', '"']
  else if c = '\\' then ['\\', '\\']
  else if c.toNat < 32 then unicodeEscape c.toNat
  else [c]

/-- The escaped characters of a string, in order. -/
def escapeChars : List Char → List Char
  | [] => []
  | c :: cs => escapeChar c ++ escapeChars cs

/-- QuoteJSONString: the escaped characters between two double quotes. -/
def quoteJSONString (s : String) : List Char :=
  '"' :: (escapeChars s.data ++ ['"'])

/-- The members or elements of a composite, separated by commas. -/
def joinComma : List (List Char) → List Char
  | [] => []
  | [x] => x
  | x :: y :: rest => x ++ ',' :: joinComma (y :: rest)

mutual
/-- SerializeJSONProperty on the value already read from its holder: `none` is
the result `undefined`. -/
def serializeJSONProperty : JSValue → Except JSError (Option (List Char))
  | .undefined => .ok none
  | .null => .ok (some ['n', 'u', 'l', 'l'])
  | .bool true => .ok (some ['t', 'r', 'u', 'e'])
  | .bool false => .ok (some ['f', 'a', 'l', 's', 'e'])
  | .number n =>
    .ok (some (if n.isFinite then numberToString n else ['n', 'u', 'l', 'l']))
  | .string s => .ok (some (quoteJSONString s))
  | .bigint _ => .error (.TypeError "Do not know how to serialize a BigInt")
  | .symbol _ => .ok none
  | .function _ => .ok none
  | .array elems =>
    match serializeJSONArray elems with
    | .error err => .error err
    | .ok parts => .ok (some ('[' :: (joinComma parts ++ [']'])))
  | .object props =>
    match serializeJSONObject props with
    | .error err => .error err
    | .ok parts => .ok (some ('{' :: (joinComma parts ++ ['}'])))
  | .circular _ => .error (.TypeError "Converting circular structure to JSON")
/-- SerializeJSONArray: the serialized elements, `null` for an element whose
serialization is `undefined`. -/
def serializeJSONArray : List JSValue → Except JSError (List (List Char))
  | [] => .ok []
  | e :: es =>
    match serializeJSONProperty e with
    | .error err => .error err
    | .ok strP =>
      match serializeJSONArray es with
      | .error err => .error err
      | .ok rest => .ok (strP.getD ['n', 'u', 'l', 'l'] :: rest)
/-- SerializeJSONObject: the serialized members `"key":value`, a property whose
serialization is `undefined` being left out. -/
def serializeJSONObject : List (String × JSValue) → Except JSError (List (List Char))
  | [] => .ok []
  | (k, v) :: ps =>
    match serializeJSONProperty v with
    | .error err => .error err
    | .ok none => serializeJSONObject ps
    | .ok (some strP) =>
      match serializeJSONObject ps with
      | .error err => .error err
      | .ok rest => .ok ((quoteJSONString k ++ ':' :: strP) :: rest)
end

/-- The call `JSON.stringify(event)`: a string, `undefined` (`none`), or a thrown
TypeError. -/
def JSON.stringify (value : JSValue) : Except JSError (Option String) :=
  match serializeJSONProperty value with
  | .error err => .error err
  | .ok none => .ok none
  | .ok (some cs) => .ok (some (String.mk cs))

/-! ## The handler -/

/-- The parameter object of `kinesis.putRecord`.  `Data` is `none` when
`JSON.stringify` returned `undefined`, `StreamName` is `none` when the
environment variable is not set. -/
structure PutRecordInput where
  Data : Option String
  PartitionKey : String
  StreamName : Option String
  deriving DecidableEq, Repr

/-- The acknowledgment of the streaming service. -/
structure PutRecordOutput where
  ShardId : String
  SequenceNumber : String
  deriving DecidableEq, Repr

/-- The world the handler runs in: `process.env`, and the `putRecord` requests
issued so far, oldest first. -/
structure World where
  env : String → Option String
  calls : List PutRecordInput

/-- The client `kinesis`: how `putRecord(params).promise()` settles, given the
requests issued before it. -/
structure Kinesis where
  putRecord : List PutRecordInput → PutRecordInput → Except JSError PutRecordOutput

/-- The package `aws-sdk` as far as the module uses it: `new aws.Kinesis()` builds
a client from the environment of the moment of construction. -/
structure AWS where
  Kinesis : (String → Option String) → Kinesis

/-- How the promise returned by the async handler settles. -/
inductive Settled
  | fulfilled (value : PutRecordOutput)
  | rejected (reason : JSError)
  deriving DecidableEq, Repr

/-- The function `exports.handler`, with the module-level binding `kinesis` as a
parameter.  The argument object is evaluated first (`JSON.stringify(event)`,
then `process.env.STREAM_NAME`), then `putRecord` is called once and its
promise awaited. -/
def handler (kinesis : Kinesis) (event : JSValue) (w : World) : Settled × World :=
  match JSON.stringify event with
  | .error err => (.rejected err, w)
  | .ok data =>
    let params : PutRecordInput :=
      { Data := data
        PartitionKey := "SendContactFlowEventKey"
        StreamName := w.env "STREAM_NAME" }
    match kinesis.putRecord w.calls params with
    | .ok output => (.fulfilled output, { w with calls := w.calls ++ [params] })
    | .error err => (.rejected err, { w with calls := w.calls ++ [params] })

/-- Loading the module: `kinesis` is constructed once, in the environment of load
time, and the handler is exported. -/
def loadModule (aws : AWS) (loadEnv : String → Option String) :
    JSValue → World → Settled × World :=
  handler (aws.Kinesis loadEnv)

/-- The requests issued during one invocation: what the invocation appended to
the log. -/
def submitted (kinesis : Kinesis) (event : JSValue) (w : World) : List PutRecordInput :=
  (handler kinesis event w).2.calls.drop w.calls.length

/-! ## JSON.parse (ECMA-262 25.5.1, no reviver) -/

/-- Why a text yields no value.  `malformed`: the text is not JSON (`JSON.parse`
throws a SyntaxError).  `outside`: the text holds an unpaired surrogate escape,
a code unit that the strings of this embedding do not have.  `fuel`: the
recursion bound was reached. -/
inductive ParseFailure
  | malformed
  | outside
  | fuel
  deriving DecidableEq, Repr

/-- JSON white space: space, tab, line feed, carriage return. -/
def isWhitespace (c : Char) : Bool :=
  c.toNat = 32 || c.toNat = 9 || c.toNat = 10 || c.toNat = 13

/-- The text after its leading white space. -/
def skipWhitespace : List Char → List Char
  | [] => []
  | c :: cs => if isWhitespace c then skipWhitespace cs else c :: cs

/-- A decimal digit. -/
def isDigit (c : Char) : Bool :=
  decide (48 ≤ c.toNat) && decide (c.toNat ≤ 57)

/-- The value of a hexadecimal digit, in either case. -/
def hexValue (c : Char) : Option Nat :=
  if 48 ≤ c.toNat ∧ c.toNat ≤ 57 then some (c.toNat - 48)
  else if 97 ≤ c.toNat ∧ c.toNat ≤ 102 then some (c.toNat - 87)
  else if 65 ≤ c.toNat ∧ c.toNat ≤ 70 then some (c.toNat - 55)
  else none

/-- The code unit of the four hexadecimal digits of a `\u` escape. -/
def hex4 (a b c d : Char) : Option Nat :=
  match hexValue a, hexValue b, hexValue c, hexValue d with
  | some x, some y, some z, some w => some (x * 4096 + y * 256 + z * 16 + w)
  | _, _, _, _ => none

/-- The character of a two-character escape. -/
def simpleEscape (e : Char) : Option Char :=
  if e = '"' then some '"'
  else if e = '\\' then some '\\'
  else if e = '/' then some '/'
  else if e = 'b' then some (Char.ofNat 8)
  else if e = 'f' then some (Char.ofNat 12)
  else if e = 'n' then some (Char.ofNat 10)
  else if e = 'r' then some (Char.ofNat 13)
  else if e = 't' then some (Char.ofNat 9)
  else none

/-- One more character in front of a parsed string. -/
def consChar (c : Char) :
    Except ParseFailure (List Char × List Char) → Except ParseFailure (List Char × List Char)
  | .ok (s, rest) => .ok (c :: s, rest)
  | .error f => .error f

/-- The low half of a surrogate pair, written as a second `\u` escape after the
high half `n`: the character of the pair and the text after the escape. -/
def decodeLowSurrogate (n : Nat) : List Char → Except ParseFailure (Char × List Char)
  | b1 :: u1 :: a :: b :: c :: d :: cs =>
    if b1 = '\\' ∧ u1 = 'u' then
      match hex4 a b c d with
      | none => .error .outside
      | some m =>
        if 0xDC00 ≤ m ∧ m < 0xE000 then
          .ok (Char.ofNat (0x10000 + (n - 0xD800) * 0x400 + (m - 0xDC00)), cs)
        else .error .outside
    else .error .outside
  | _ => .error .outside

/-- The four hexadecimal digits of a `\u` escape: the character of that code
point, or of the surrogate pair it starts. -/
def decodeUnicode : List Char → Except ParseFailure (Char × List Char)
  | a :: b :: c :: d :: cs =>
    match hex4 a b c d with
    | none => .error .malformed
    | some n =>
      if 0xD800 ≤ n ∧ n < 0xDC00 then decodeLowSurrogate n cs
      else if 0xDC00 ≤ n ∧ n < 0xE000 then .error .outside
      else .ok (Char.ofNat n, cs)
  | _ => .error .malformed

/-- An escape, the backslash already read: the character it denotes and the text
after it. -/
def decodeEscape : List Char → Except ParseFailure (Char × List Char)
  | [] => .error .malformed
  | e :: cs =>
    if e = 'u' then decodeUnicode cs
    else
      match simpleEscape e with
      | none => .error .malformed
      | some ch => .ok (ch, cs)

/-- The characters of a JSON string up to its closing quote, the opening quote
already read: the string value and the text after the closing quote.  The
first argument bounds the number of characters read. -/
def parseStringChars : Nat → List Char → Except ParseFailure (List Char × List Char)
  | 0, _ => .error .fuel
  | _ + 1, [] => .error .malformed
  | fuel + 1, c :: cs =>
    if c = '"' then .ok ([], cs)
    else if c = '\\' then
      match decodeEscape cs with
      | .error f => .error f
      | .ok (ch, rest) => consChar ch (parseStringChars fuel rest)
    else if c.toNat < 32 then .error .malformed
    else consChar c (parseStringChars fuel cs)

/-- A JSON string, the opening quote already read. -/
def parseString (cs : List Char) : Except ParseFailure (List Char × List Char) :=
  parseStringChars (cs.length + 1) cs

/-- The longest run of decimal digits at the head of the text, and the text
after it. -/
def takeDigits : List Char → List Char × List Char
  | [] => ([], [])
  | c :: cs =>
    if isDigit c then (c :: (takeDigits cs).1, (takeDigits cs).2) else ([], c :: cs)

/-- The natural number that a run of decimal digits denotes. -/
def decimalValue (ds : List Char) : Nat :=
  ds.foldl (fun acc c => acc * 10 + (c.toNat - 48)) 0

/-- The decimal `v * 10 ^ e` without the trailing zeros of `v`, moved into the
exponent.  The first argument bounds the number of steps. -/
def stripZeros : Nat → Nat → Int → Nat × Int
  | 0, v, e => (v, e)
  | fuel + 1, v, e => if v % 10 = 0 then stripZeros fuel (v / 10) (e + 1) else (v, e)

/-- The Number value of a numeric literal with the given integer digits,
fraction digits and exponent: the decimal it denotes, as digits `s` and
exponent `n` (a literal that is no shortest decimal of a double denotes in this
embedding the decimal itself, where ECMAScript rounds to the nearest double). -/
def numberOf (negative : Bool) (intDigits fracDigits : List Char) (exponent : Int) :
    JSNumber :=
  let v := decimalValue (intDigits ++ fracDigits)
  if v = 0 then .zero negative
  else
    let r := stripZeros v v (exponent - fracDigits.length)
    .finite negative r.1 (r.2 + (Nat.toDigits 10 r.1).length)

/-- The fraction of a number, if there is one: the digits after the point. -/
def parseFraction : List Char → Except ParseFailure (List Char × List Char)
  | [] => .ok ([], [])
  | c :: cs =>
    if c = '.' then
      if (takeDigits cs).1 = [] then .error .malformed else .ok (takeDigits cs)
    else .ok ([], c :: cs)

/-- The digits of an exponent, its sign already read. -/
def parseExponentDigits (negative : Bool) (cs : List Char) :
    Except ParseFailure (Int × List Char) :=
  if (takeDigits cs).1 = [] then .error .malformed
  else if negative then .ok (- (decimalValue (takeDigits cs).1 : Int), (takeDigits cs).2)
  else .ok ((decimalValue (takeDigits cs).1 : Int), (takeDigits cs).2)

/-- The exponent of a number, if there is one; 0 otherwise. -/
def parseExponent : List Char → Except ParseFailure (Int × List Char)
  | [] => .ok (0, [])
  | c :: cs =>
    if c = 'e' ∨ c = 'E' then
      match cs with
      | [] => .error .malformed
      | sign :: cs1 =>
        if sign = '-' then parseExponentDigits true cs1
        else if sign = '+' then parseExponentDigits false cs1
        else parseExponentDigits false (sign :: cs1)
    else .ok (0, c :: cs)

/-- A number, the sign already read: the integer part (a single `0`, or digits
that start with no `0`), the fraction and the exponent. -/
def parseUnsigned (negative : Bool) (cs : List Char) :
    Except ParseFailure (JSValue × List Char) :=
  match (takeDigits cs).1 with
  | [] => .error .malformed
  | d :: ds =>
    if d = '0' ∧ ds ≠ [] then .error .malformed
    else
      match parseFraction (takeDigits cs).2 with
      | .error f => .error f
      | .ok (fracDigits, rest1) =>
        match parseExponent rest1 with
        | .error f => .error f
        | .ok (exponent, rest2) =>
          .ok (.number (numberOf negative (d :: ds) fracDigits exponent), rest2)

/-- A JSON number: an optional minus sign and the unsigned number. -/
def parseNumber : List Char → Except ParseFailure (JSValue × List Char)
  | [] => .error .malformed
  | c :: cs => if c = '-' then parseUnsigned true cs else parseUnsigned false (c :: cs)

/-- The array index that a property key is: the key is the decimal of an integer
below 2^32 - 1, with no leading zero. -/
def arrayIndex (k : String) : Option Nat :=
  match k.data with
  | [] => none
  | c :: cs =>
    if (c :: cs).all isDigit && (c != '0' || cs.isEmpty)
        && decide (decimalValue (c :: cs) ≤ 4294967294) then
      some (decimalValue (c :: cs))
    else none

/-- The first key is enumerated before the second whatever the order of
creation: it is an array index and the second is a larger one or none. -/
def enumeratedBefore (a b : String) : Bool :=
  match arrayIndex a, arrayIndex b with
  | some i, some j => decide (i < j)
  | some _, none => true
  | none, _ => false

/-- CreateDataProperty on the list of properties, which is kept in enumeration
order: the value of an existing key is replaced in place, a new array index
comes among the array indices in ascending order, any other new key last. -/
def setProp (k : String) (v : JSValue) : List (String × JSValue) → List (String × JSValue)
  | [] => [(k, v)]
  | p :: ps =>
    if p.1 = k then (k, v) :: ps
    else if enumeratedBefore k p.1 then (k, v) :: p :: ps
    else p :: setProp k v ps

/-- The object built from the members of an object text, in text order. -/
def mergeProps (members : List (String × JSValue)) : List (String × JSValue) :=
  members.foldl (fun acc m => setProp m.1 m.2 acc) []

mutual
/-- A JSON value, white space before it allowed: the value and the text after
it. -/
def parseValue : Nat → List Char → Except ParseFailure (JSValue × List Char)
  | 0, _ => .error .fuel
  | fuel + 1, cs =>
    match skipWhitespace cs with
    | [] => .error .malformed
    | c :: rest =>
      if c = '{' then
        match skipWhitespace rest with
        | [] => .error .malformed
        | c1 :: rest1 =>
          if c1 = '}' then .ok (.object [], rest1)
          else
            match parseMembers fuel (c1 :: rest1) with
            | .error f => .error f
            | .ok (members, rest2) => .ok (.object (mergeProps members), rest2)
      else if c = '[' then
        match skipWhitespace rest with
        | [] => .error .malformed
        | c1 :: rest1 =>
          if c1 = ']' then .ok (.array [], rest1)
          else
            match parseElements fuel (c1 :: rest1) with
            | .error f => .error f
            | .ok (elems, rest2) => .ok (.array elems, rest2)
      else if c = '"' then
        match parseString rest with
        | .error f => .error f
        | .ok (s, rest1) => .ok (.string (String.mk s), rest1)
      else if c = 't' then
        match rest with
        | r :: u :: e :: rest1 =>
          if r = 'r' ∧ u = 'u' ∧ e = 'e' then .ok (.bool true, rest1) else .error .malformed
        | _ => .error .malformed
      else if c = 'f' then
        match rest with
        | a :: l :: s :: e :: rest1 =>
          if a = 'a' ∧ l = 'l' ∧ s = 's' ∧ e = 'e' then .ok (.bool false, rest1)
          else .error .malformed
        | _ => .error .malformed
      else if c = 'n' then
        match rest with
        | u :: l :: l2 :: rest1 =>
          if u = 'u' ∧ l = 'l' ∧ l2 = 'l' then .ok (.null, rest1) else .error .malformed
        | _ => .error .malformed
      else parseNumber (c :: rest)
/-- The elements of a non-empty array up to its closing bracket. -/
def parseElements : Nat → List Char → Except ParseFailure (List JSValue × List Char)
  | 0, _ => .error .fuel
  | fuel + 1, cs =>
    match parseValue fuel cs with
    | .error f => .error f
    | .ok (v, rest) =>
      match skipWhitespace rest with
      | [] => .error .malformed
      | c :: rest1 =>
        if c = ',' then
          match parseElements fuel rest1 with
          | .error f => .error f
          | .ok (vs, rest2) => .ok (v :: vs, rest2)
        else if c = ']' then .ok ([v], rest1)
        else .error .malformed
/-- The members of a non-empty object up to its closing brace. -/
def parseMembers : Nat → List Char →
    Except ParseFailure (List (String × JSValue) × List Char)
  | 0, _ => .error .fuel
  | fuel + 1, cs =>
    match skipWhitespace cs with
    | [] => .error .malformed
    | q :: rest =>
      if q = '"' then
        match parseString rest with
        | .error f => .error f
        | .ok (k, rest1) =>
          match skipWhitespace rest1 with
          | [] => .error .malformed
          | colon :: rest2 =>
            if colon = ':' then
              match parseValue fuel rest2 with
              | .error f => .error f
              | .ok (v, rest3) =>
                match skipWhitespace rest3 with
                | [] => .error .malformed
                | c :: rest4 =>
                  if c = ',' then
                    match parseMembers fuel rest4 with
                    | .error f => .error f
                    | .ok (ms, rest5) => .ok ((String.mk k, v) :: ms, rest5)
                  else if c = '}' then .ok ([(String.mk k, v)], rest4)
                  else .error .malformed
            else .error .malformed
      else .error .malformed
end

/-- The call `JSON.parse(text)`: the whole text is one JSON value between
optional white space. -/
def JSON.parse (text : String) : Except ParseFailure JSValue :=
  match parseValue (text.data.length + 1) text.data with
  | .error f => .error f
  | .ok (v, rest) =>
    match skipWhitespace rest with
    | [] => .ok v
    | _ :: _ => .error .malformed

/-- The text after a value stops the value: it is empty or starts with a comma,
a closing bracket or a closing brace. -/
def atDelimiter : List Char → Bool
  | [] => true
  | c :: _ => c = ',' || c = ']' || c = '}'

/-- The text starts as a value does in an array or after a colon: its first
character is no white space and closes neither an array nor an object. -/
def startsValue : List Char → Bool
  | [] => false
  | c :: _ => !isWhitespace c && c != ']' && c != '}'

/-! ## Classes of events -/

mutual
/-- Every value of the event is one that JSON represents: `null`, a boolean, a
finite number, a string, an array or a plain object of such values. -/
def serializable : JSValue → Bool
  | .null => true
  | .bool _ => true
  | .number n => n.isFinite
  | .string _ => true
  | .array elems => serializableElems elems
  | .object props => serializableProps props
  | _ => false
/-- Every element is serializable. -/
def serializableElems : List JSValue → Bool
  | [] => true
  | e :: es => serializable e && serializableElems es
/-- Every property value is serializable. -/
def serializableProps : List (String × JSValue) → Bool
  | [] => true
  | (_, v) :: ps => serializable v && serializableProps ps
end

/-- The key is among the properties. -/
def hasKey (k : String) : List (String × JSValue) → Bool
  | [] => false
  | p :: ps => p.1 == k || hasKey k ps

mutual
/-- The value is one of an ECMAScript program: a finite number has digits `s`
not divisible by 10, at most 17 of them, and an exponent in the range of the
doubles; an object lists its properties in enumeration order and no key
twice. -/
def wellFormed : JSValue → Bool
  | .number (.finite _ s n) =>
    decide (s % 10 ≠ 0) && decide (s < 10 ^ 17) && decide (-323 ≤ n) && decide (n ≤ 309)
  | .array elems => wellFormedElems elems
  | .object props => wellFormedProps props
  | _ => true
/-- Every element is well formed. -/
def wellFormedElems : List JSValue → Bool
  | [] => true
  | e :: es => wellFormed e && wellFormedElems es
/-- The keys are distinct and in enumeration order, and every property value is
well formed. -/
def wellFormedProps : List (String × JSValue) → Bool
  | [] => true
  | (k, v) :: ps =>
    !hasKey k ps && !ps.any (fun q => enumeratedBefore q.1 k) && wellFormed v
      && wellFormedProps ps
end

mutual
/-- No number in the event is the negative zero. -/
def noNegativeZero : JSValue → Bool
  | .number (.zero true) => false
  | .array elems => elemsNoNegativeZero elems
  | .object props => propsNoNegativeZero props
  | _ => true
/-- No element holds a negative zero. -/
def elemsNoNegativeZero : List JSValue → Bool
  | [] => true
  | e :: es => noNegativeZero e && elemsNoNegativeZero es
/-- No property value holds a negative zero. -/
def propsNoNegativeZero : List (String × JSValue) → Bool
  | [] => true
  | (_, v) :: ps => noNegativeZero v && propsNoNegativeZero ps
end

mutual
/-- The event contains a circular reference or a BigInt. -/
def containsCircularOrBigInt : JSValue → Bool
  | .bigint _ => true
  | .circular _ => true
  | .array elems => elemsContainCircularOrBigInt elems
  | .object props => propsContainCircularOrBigInt props
  | _ => false
/-- Some element contains a circular reference or a BigInt. -/
def elemsContainCircularOrBigInt : List JSValue → Bool
  | [] => false
  | e :: es => containsCircularOrBigInt e || elemsContainCircularOrBigInt es
/-- Some property value contains a circular reference or a BigInt. -/
def propsContainCircularOrBigInt : List (String × JSValue) → Bool
  | [] => false
  | (_, v) :: ps => containsCircularOrBigInt v || propsContainCircularOrBigInt ps
end

/-- The event is an object, an array or a primitive that JSON has a text for:
not `undefined`, a symbol or a function. -/
def representable : JSValue → Bool
  | .undefined => false
  | .symbol _ => false
  | .function _ => false
  | _ => true

/-- The value of a key among the properties. -/
def getProp (k : String) : List (String × JSValue) → Option JSValue
  | [] => none
  | p :: ps => if p.1 = k then some p.2 else getProp k ps

mutual
/-- Structural (deep) equality: primitives are the same value (the two zeros
differ, NaN equals NaN), arrays are equal element by element, objects have the
same keys with structurally equal values, in whatever order the keys are
listed. -/
def structEq : JSValue → JSValue → Bool
  | .undefined, b => (match b with | .undefined => true | _ => false)
  | .null, b => (match b with | .null => true | _ => false)
  | .bool x, b => (match b with | .bool y => x == y | _ => false)
  | .number x, b => (match b with | .number y => x == y | _ => false)
  | .string x, b => (match b with | .string y => x == y | _ => false)
  | .bigint x, b => (match b with | .bigint y => x == y | _ => false)
  | .symbol x, b => (match b with | .symbol y => x == y | _ => false)
  | .function x, b => (match b with | .function y => x == y | _ => false)
  | .circular x, b => (match b with | .circular y => x == y | _ => false)
  | .array xs, b => (match b with | .array ys => structEqElems xs ys | _ => false)
  | .object ps, b =>
    (match b with
     | .object qs => ps.length == qs.length && structEqProps ps qs
     | _ => false)
/-- Arrays of the same length with structurally equal elements. -/
def structEqElems : List JSValue → List JSValue → Bool
  | [], ys => ys.isEmpty
  | x :: xs, ys =>
    (match ys with
     | [] => false
     | y :: ys1 => structEq x y && structEqElems xs ys1)
/-- Every property on the left is a property on the right, with a structurally
equal value. -/
def structEqProps : List (String × JSValue) → List (String × JSValue) → Bool
  | [], _ => true
  | (k, v) :: ps, qs =>
    (match getProp k qs with
     | none => false
     | some v1 => structEq v v1) && structEqProps ps qs
end

/-! ## Concrete events, environments and clients -/

/-- The event `{"contactId": "abc123"}`. -/
def contactEvent : JSValue :=
  .object [("contactId", .string "abc123")]

/-- An event with a function-valued property: `{contactId: "abc123", callback: f}`. -/
def callbackEvent : JSValue :=
  .object [("contactId", .string "abc123"), ("callback", .function 0)]

/-- An event with nested values: numbers, escapes, an array and objects. -/
def nestedEvent : JSValue :=
  .object [("contactId", .string "abc123"),
    ("attributes", .array [.number (.finite true 12 2), .null, .bool true, .string "a\"b\n",
      .number (.finite false 15 1), .number (.finite false 1 22), .number (.zero false)]),
    ("queue", .object [("arn", .string "q/1"), ("tags", .array [])])]

/-- An event with a negative zero: `{x: -0}`. -/
def negativeZeroEvent : JSValue :=
  .object [("x", .number (.zero true))]

/-- An event that refers to itself: `e = {}; e.self = e`. -/
def circularEvent : JSValue :=
  .object [("self", .circular 0)]

/-- The event `{a: 1, b: 2}`. -/
def eventAB : JSValue :=
  .object [("a", .number (.finite false 1 1)), ("b", .number (.finite false 2 1))]

/-- The event `{b: 2, a: 1}`. -/
def eventBA : JSValue :=
  .object [("b", .number (.finite false 2 1)), ("a", .number (.finite false 1 1))]

/-- An environment where `STREAM_NAME` is set to the given name and nothing
else is set. -/
def streamEnv (name : String) : String → Option String :=
  fun key => if key = "STREAM_NAME" then some name else none

/-- A world with `STREAM_NAME = "my-stream"` and no request issued yet. -/
def myStreamWorld : World :=
  { env := streamEnv "my-stream", calls := [] }

/-- An acknowledgment of the service. -/
def someAck : PutRecordOutput :=
  { ShardId := "shardId-000000000000", SequenceNumber := "49590338271490256608559692538361571095921575989136588898" }

/-- A client whose requests are all acknowledged. -/
def acceptingKinesis : Kinesis :=
  { putRecord := fun _ _ => .ok someAck }

/-- A throttling error of the service. -/
def throttled : JSError :=
  .AWSError "ProvisionedThroughputExceededException" "Rate exceeded"

/-- A client whose requests all fail. -/
def failingKinesis : Kinesis :=
  { putRecord := fun _ _ => .error throttled }

/-- An SDK whose clients acknowledge every request. -/
def acceptingAWS : AWS :=
  { Kinesis := fun _ => acceptingKinesis }

/-- A world with the same `STREAM_NAME` as `myStreamWorld`, another variable set
too and a request already issued. -/
def laterWorld : World :=
  { env := fun key =>
      if key = "STREAM_NAME" then some "my-stream"
      else if key = "AWS_REGION" then some "ap-northeast-1" else none
    calls := [⟨some "null", "SendContactFlowEventKey", some "old-stream"⟩] }

/-! ## The handler, case by case -/

theorem handler_of_throw (kinesis : Kinesis) (event : JSValue) (w : World) (err : JSError)
    (h : JSON.stringify event = .error err) :
    handler kinesis event w = (.rejected err, w) := by
  simp [handler, h]

theorem handler_of_data (kinesis : Kinesis) (event : JSValue) (w : World)
    (data : Option String) (h : JSON.stringify event = .ok data) :
    handler kinesis event w =
      ((match kinesis.putRecord w.calls ⟨data, "SendContactFlowEventKey", w.env "STREAM_NAME"⟩ with
        | .ok output => Settled.fulfilled output
        | .error err => Settled.rejected err),
       { w with calls := w.calls ++ [⟨data, "SendContactFlowEventKey", w.env "STREAM_NAME"⟩] }) := by
  simp only [handler, h]
  cases kinesis.putRecord w.calls ⟨data, "SendContactFlowEventKey", w.env "STREAM_NAME"⟩ <;> rfl

theorem submitted_of_throw (kinesis : Kinesis) (event : JSValue) (w : World) (err : JSError)
    (h : JSON.stringify event = .error err) :
    submitted kinesis event w = [] := by
  simp [submitted, handler_of_throw kinesis event w err h]

theorem submitted_of_data (kinesis : Kinesis) (event : JSValue) (w : World)
    (data : Option String) (h : JSON.stringify event = .ok data) :
    submitted kinesis event w = [⟨data, "SendContactFlowEventKey", w.env "STREAM_NAME"⟩] := by
  simp [submitted, handler_of_data kinesis event w data h]

theorem mem_submitted (kinesis : Kinesis) (event : JSValue) (w : World) (r : PutRecordInput)
    (h : r ∈ submitted kinesis event w) :
    ∃ data, JSON.stringify event = .ok data ∧
      r = ⟨data, "SendContactFlowEventKey", w.env "STREAM_NAME"⟩ := by
  cases hs : JSON.stringify event with
  | error err => simp [submitted_of_throw kinesis event w err hs] at h
  | ok data =>
    rw [submitted_of_data kinesis event w data hs] at h
    exact ⟨data, rfl, by simpa using h⟩

/-! ## The embedded built-ins on concrete inputs -/

theorem stringify_nestedEvent :
    JSON.stringify nestedEvent = .ok (some
      "\x7b\"contactId\":\"abc123\",\"attributes\":[-12,null,true,\"a\\\"b\\n\",1.5,1e+21,0],\"queue\":\x7b\"arn\":\"q/1\",\"tags\":[]\x7d\x7d") :=
  rfl

theorem stringify_lossy_values :
    JSON.stringify (.object [("a", .array [.undefined, .number .nan, .function 0, .symbol 1]),
        ("b", .undefined), ("c", .function 0), ("d\t", .string (String.mk [Char.ofNat 1]))])
      = .ok (some "\x7b\"a\":[null,null,null,null],\"d\\t\":\"\\u0001\"\x7d") ∧
    JSON.stringify .undefined = .ok none ∧
    JSON.stringify (.function 0) = .ok none ∧
    JSON.stringify (.number .posInf) = .ok (some "null") :=
  ⟨rfl, rfl, rfl, rfl⟩

theorem stringify_numbers :
    JSON.stringify (.array [.number (.finite false 15 1), .number (.finite false 1 22),
        .number (.finite false 1 21), .number (.finite true 12 3), .number (.finite false 1 (-6)),
        .number (.finite false 1 (-5)), .number (.finite false 12345 (-6)),
        .number (.finite false 17976931348623157 309), .number (.finite false 5 (-323)),
        .number (.finite false 123456 3), .number (.zero true), .number (.zero false)])
      = .ok (some "[1.5,1e+21,100000000000000000000,-120,1e-7,0.000001,1.2345e-7,1.7976931348623157e+308,5e-324,123.456,0,0]") :=
  rfl

theorem parse_numbers :
    JSON.parse "[1.5,1e+21,-120,1e-7,0.000001,1.2345e-7,1.7976931348623157e+308,5e-324,123.456,-0,0,1.50,0.0,100,1E2]"
      = .ok (.array [.number (.finite false 15 1), .number (.finite false 1 22),
        .number (.finite true 12 3), .number (.finite false 1 (-6)),
        .number (.finite false 1 (-5)), .number (.finite false 12345 (-6)),
        .number (.finite false 17976931348623157 309), .number (.finite false 5 (-323)),
        .number (.finite false 123456 3), .number (.zero true), .number (.zero false),
        .number (.finite false 15 1), .number (.zero false), .number (.finite false 1 3),
        .number (.finite false 1 3)]) :=
  rfl

theorem parse_reads_white_space_and_escapes :
    JSON.parse " \x7b \"a\" : [ 1 , -20 ] ,\n \"b\":\x7b\x7d, \"a\": \"\\ud83d\\ude00\\/\\u0041\" \x7d "
      = .ok (.object [("a", .string "😀/A"), ("b", .object [])]) :=
  rfl

theorem parse_lists_array_indices_first :
    JSON.parse "\x7b\"b\":1,\"10\":2,\"9\":3,\"b\":4,\"01\":5\x7d"
      = .ok (.object [("9", .number (.finite false 3 1)), ("10", .number (.finite false 2 1)),
        ("b", .number (.finite false 4 1)), ("01", .number (.finite false 5 1))]) :=
  rfl

theorem parse_rejects_malformed_text :
    JSON.parse "[01]" = .error .malformed ∧ JSON.parse "[1,]" = .error .malformed ∧
      JSON.parse "tru" = .error .malformed ∧ JSON.parse "\"a\nb\"" = .error .malformed ∧
      JSON.parse "\x7b\"a\":1\x7d x" = .error .malformed ∧ JSON.parse "" = .error .malformed ∧
      JSON.parse "1." = .error .malformed ∧ JSON.parse "1e" = .error .malformed ∧
      JSON.parse ".5" = .error .malformed ∧ JSON.parse "-" = .error .malformed :=
  ⟨rfl, rfl, rfl, rfl, rfl, rfl, rfl, rfl, rfl, rfl⟩

theorem parse_stops_at_an_unpaired_surrogate :
    JSON.parse "\"\\ud83d\"" = .error .outside ∧ JSON.parse "\"\\ude00\"" = .error .outside ∧
      JSON.parse "\"\\ud83d\\ude00\"" = .ok (.string "😀") :=
  ⟨rfl, rfl, rfl⟩

/-! ## Round trip: strings -/

theorem skipWhitespace_cons (c : Char) (cs : List Char) (h : isWhitespace c = false) :
    skipWhitespace (c :: cs) = c :: cs := by
  simp [skipWhitespace, h]

theorem hex4_unicodeEscape : ∀ n, n < 32 →
    hex4 (Nat.digitChar (n / 4096 % 16)) (Nat.digitChar (n / 256 % 16))
      (Nat.digitChar (n / 16 % 16)) (Nat.digitChar (n % 16)) = some n := by
  decide

theorem escapeChar_length_pos (c : Char) : 0 < (escapeChar c).length := by
  unfold escapeChar unicodeEscape
  split_ifs <;> simp

theorem parseStringChars_escapeChar (fuel : Nat) (c : Char) (tail : List Char) :
    parseStringChars (fuel + 1) (escapeChar c ++ tail) = consChar c (parseStringChars fuel tail) := by
  unfold escapeChar
  split_ifs with h1 h2 h3 h4 h5 h6 h7 h8
  · subst h1; simp [parseStringChars, decodeEscape, simpleEscape]
  · subst h2; simp [parseStringChars, decodeEscape, simpleEscape]
  · subst h3; simp [parseStringChars, decodeEscape, simpleEscape]
  · subst h4; simp [parseStringChars, decodeEscape, simpleEscape]
  · subst h5; simp [parseStringChars, decodeEscape, simpleEscape]
  · subst h6; simp [parseStringChars, decodeEscape, simpleEscape]
  · subst h7; simp [parseStringChars, decodeEscape, simpleEscape]
  · have hx := hex4_unicodeEscape c.toNat h8
    have hlt : ¬ (0xD800 ≤ c.toNat ∧ c.toNat < 0xDC00) := by omega
    have hlt2 : ¬ (0xDC00 ≤ c.toNat ∧ c.toNat < 0xE000) := by omega
    simp only [unicodeEscape, List.cons_append, List.nil_append]
    rw [parseStringChars]
    simp [decodeEscape, decodeUnicode, hx, hlt, hlt2, Char.ofNat_toNat]
  · simp only [List.cons_append, List.nil_append]
    rw [parseStringChars]
    simp [h6, h7, h8]

theorem parseStringChars_escapeChars (s : List Char) :
    ∀ (fuel : Nat) (rest : List Char), (escapeChars s).length < fuel →
      parseStringChars fuel (escapeChars s ++ '"' :: rest) = .ok (s, rest) := by
  induction s with
  | nil =>
    intro fuel rest h
    cases fuel with
    | zero => simp at h
    | succ f => simp [escapeChars, parseStringChars]
  | cons c cs ih =>
    intro fuel rest h
    cases fuel with
    | zero => simp at h
    | succ f =>
      have hpos := escapeChar_length_pos c
      have hlen : (escapeChars cs).length < f := by
        simp only [escapeChars, List.length_append] at h
        omega
      rw [escapeChars, List.append_assoc, parseStringChars_escapeChar, ih f rest hlen]
      rfl

theorem parseString_quoted (s rest : List Char) :
    parseString (escapeChars s ++ '"' :: rest) = .ok (s, rest) := by
  unfold parseString
  apply parseStringChars_escapeChars
  simp only [List.length_append, List.length_cons]
  omega


/-! ## Round trip: digits -/

theorem digitChar_facts : ∀ d, d < 10 →
    isDigit (Nat.digitChar d) = true ∧ (Nat.digitChar d).toNat - 48 = d ∧
      (d ≠ 0 → Nat.digitChar d ≠ '0') ∧ Nat.digitChar d ≠ '-' ∧
      isWhitespace (Nat.digitChar d) = false := by
  decide

theorem toDigitsCore_isDigit (fuel : Nat) :
    ∀ (n : Nat) (ds : List Char), (∀ c ∈ ds, isDigit c = true) →
      ∀ c ∈ Nat.toDigitsCore 10 fuel n ds, isDigit c = true := by
  induction fuel with
  | zero => intro n ds h; simpa [Nat.toDigitsCore] using h
  | succ f ih =>
    intro n ds h
    have hd := digitChar_facts (n % 10) (Nat.mod_lt _ (by decide))
    have hcons : ∀ c ∈ Nat.digitChar (n % 10) :: ds, isDigit c = true := by
      intro c hc
      rcases List.mem_cons.mp hc with hc | hc
      · rw [hc]; exact hd.1
      · exact h c hc
    rw [Nat.toDigitsCore]
    by_cases h0 : n / 10 = 0
    · simpa only [h0, if_true] using hcons
    · simp only [h0, if_false]
      exact ih (n / 10) _ hcons

theorem toDigits_isDigit (n : Nat) : ∀ c ∈ Nat.toDigits 10 n, isDigit c = true :=
  toDigitsCore_isDigit (n + 1) n [] (by simp)

theorem foldl_toDigitsCore (fuel : Nat) :
    ∀ (n : Nat) (ds : List Char), n < fuel →
      (Nat.toDigitsCore 10 fuel n ds).foldl (fun acc c => acc * 10 + (c.toNat - 48)) 0
        = ds.foldl (fun acc c => acc * 10 + (c.toNat - 48)) n := by
  induction fuel with
  | zero => intro n ds h; omega
  | succ f ih =>
    intro n ds h
    have hd := digitChar_facts (n % 10) (Nat.mod_lt _ (by decide))
    rw [Nat.toDigitsCore]
    by_cases h0 : n / 10 = 0
    · have hn : n % 10 = n := by omega
      simp only [h0, if_true, List.foldl_cons, hd.2.1, Nat.zero_mul, Nat.zero_add]
      rw [hn]
    · simp only [h0, if_false]
      rw [ih (n / 10) _ (by omega)]
      simp only [List.foldl_cons, hd.2.1]
      congr 1
      omega

theorem decimalValue_toDigits (n : Nat) : decimalValue (Nat.toDigits 10 n) = n := by
  unfold decimalValue Nat.toDigits
  rw [foldl_toDigitsCore (n + 1) n [] (by omega)]
  rfl

theorem toDigitsCore_head (fuel : Nat) :
    ∀ (n : Nat) (ds : List Char), 0 < n → n < fuel →
      ∃ d cs, Nat.toDigitsCore 10 fuel n ds = d :: cs ∧ d ≠ '0' ∧ isDigit d = true := by
  induction fuel with
  | zero => intro n ds _ h; omega
  | succ f ih =>
    intro n ds hpos h
    have hd := digitChar_facts (n % 10) (Nat.mod_lt _ (by decide))
    rw [Nat.toDigitsCore]
    by_cases h0 : n / 10 = 0
    · have hn : n % 10 ≠ 0 := by omega
      simp only [h0, if_true]
      exact ⟨_, _, rfl, hd.2.2.1 hn, hd.1⟩
    · simp only [h0, if_false]
      exact ih (n / 10) _ (by omega) (by omega)

theorem toDigits_head (n : Nat) (h : 0 < n) :
    ∃ d cs, Nat.toDigits 10 n = d :: cs ∧ d ≠ '0' ∧ isDigit d = true :=
  toDigitsCore_head (n + 1) n [] h (by omega)

theorem foldl_zeros (j acc : Nat) :
    (zeros j).foldl (fun acc c => acc * 10 + (c.toNat - 48)) acc = acc * 10 ^ j := by
  induction j generalizing acc with
  | zero => simp [zeros]
  | succ j ih =>
    have : zeros (j + 1) = '0' :: zeros j := rfl
    rw [this, List.foldl_cons, ih]
    have h0 : ('0' : Char).toNat - 48 = 0 := by decide
    rw [h0, Nat.pow_succ]
    ring

theorem decimalValue_append_zeros (ds : List Char) (j : Nat) :
    decimalValue (ds ++ zeros j) = decimalValue ds * 10 ^ j := by
  unfold decimalValue
  rw [List.foldl_append, foldl_zeros]

theorem decimalValue_zeros_append (ds : List Char) (j : Nat) :
    decimalValue (zeros j ++ ds) = decimalValue ds := by
  unfold decimalValue
  rw [List.foldl_append, foldl_zeros]
  simp

theorem zeros_isDigit (j : Nat) : ∀ c ∈ zeros j, isDigit c = true := by
  intro c hc
  have : c = '0' := List.eq_of_mem_replicate hc
  rw [this]
  rfl

theorem takeDigits_append (ds rest : List Char) (hds : ∀ c ∈ ds, isDigit c = true)
    (hrest : ∀ c tl, rest = c :: tl → isDigit c = false) :
    takeDigits (ds ++ rest) = (ds, rest) := by
  induction ds with
  | nil =>
    cases rest with
    | nil => rfl
    | cons c tl => simp [takeDigits, hrest c tl rfl]
  | cons d ds ih =>
    have hd : isDigit d = true := hds d (List.mem_cons_self _ _)
    have := ih (fun c hc => hds c (List.mem_cons_of_mem _ hc))
    simp [takeDigits, hd, this]

theorem stripZeros_pow (j : Nat) :
    ∀ (fuel s : Nat) (e : Int), s % 10 ≠ 0 → j < fuel →
      stripZeros fuel (s * 10 ^ j) e = (s, e + j) := by
  induction j with
  | zero =>
    intro fuel s e hs hf
    obtain ⟨f, rfl⟩ : ∃ f, fuel = f + 1 := ⟨fuel - 1, by omega⟩
    simp [stripZeros, hs]
  | succ j ih =>
    intro fuel s e hs hf
    obtain ⟨f, rfl⟩ : ∃ f, fuel = f + 1 := ⟨fuel - 1, by omega⟩
    have h1 : s * 10 ^ (j + 1) % 10 = 0 := by
      rw [Nat.pow_succ, ← Nat.mul_assoc]
      exact Nat.mul_mod_left _ _
    have h2 : s * 10 ^ (j + 1) / 10 = s * 10 ^ j := by
      rw [Nat.pow_succ, ← Nat.mul_assoc]
      exact Nat.mul_div_cancel _ (by decide)
    rw [stripZeros]
    simp only [h1, if_true, h2]
    rw [ih f s (e + 1) hs (by omega)]
    simp only [Prod.mk.injEq, true_and]
    push_cast
    ring

theorem lt_mul_ten_pow (s j : Nat) (hs : 0 < s) : j < s * 10 ^ j := by
  have h1 : j < 10 ^ j := Nat.lt_pow_self (by decide) j
  calc j < 10 ^ j := h1
    _ = 1 * 10 ^ j := (Nat.one_mul _).symm
    _ ≤ s * 10 ^ j := Nat.mul_le_mul_right _ hs

theorem numberOf_eq (negative : Bool) (intDigits fracDigits : List Char) (exponent : Int)
    (s j : Nat) (hs : s % 10 ≠ 0)
    (hv : decimalValue (intDigits ++ fracDigits) = s * 10 ^ j) :
    numberOf negative intDigits fracDigits exponent =
      .finite negative s
        (exponent - fracDigits.length + j + (Nat.toDigits 10 s).length) := by
  have hpos : 0 < s := by
    rcases Nat.eq_zero_or_pos s with h | h
    · subst h; simp at hs
    · exact h
  have hne : s * 10 ^ j ≠ 0 := by
    have := lt_mul_ten_pow s j hpos
    omega
  unfold numberOf
  simp only [hv, hne, if_false]
  rw [stripZeros_pow j (s * 10 ^ j) s _ hs (lt_mul_ten_pow s j hpos)]


/-! ## Round trip: numbers -/

theorem atDelimiter_head (rest : List Char) (h : atDelimiter rest = true) :
    ∀ c tl, rest = c :: tl →
      isDigit c = false ∧ c ≠ '.' ∧ c ≠ 'e' ∧ c ≠ 'E' := by
  intro c tl hr
  subst hr
  simp only [atDelimiter, Bool.or_eq_true, decide_eq_true_eq] at h
  rcases h with (h | h) | h <;> subst h <;> decide

theorem parseFraction_none (rest : List Char) (h : ∀ c tl, rest = c :: tl → c ≠ '.') :
    parseFraction rest = .ok ([], rest) := by
  cases rest with
  | nil => rfl
  | cons c tl => simp [parseFraction, h c tl rfl]

theorem parseFraction_digits (ds tail : List Char) (hne : ds ≠ [])
    (hds : ∀ c ∈ ds, isDigit c = true)
    (htail : ∀ c tl, tail = c :: tl → isDigit c = false) :
    parseFraction ('.' :: (ds ++ tail)) = .ok (ds, tail) := by
  simp [parseFraction, takeDigits_append ds tail hds htail, hne]

theorem parseExponent_none (rest : List Char)
    (h : ∀ c tl, rest = c :: tl → c ≠ 'e' ∧ c ≠ 'E') :
    parseExponent rest = .ok (0, rest) := by
  cases rest with
  | nil => rfl
  | cons c tl => simp [parseExponent, h c tl rfl]

theorem parseExponent_digits (e : Int) (rest : List Char) (he : e ≠ 0)
    (hrest : ∀ c tl, rest = c :: tl → isDigit c = false) :
    parseExponent ('e' :: (if e < 0 then '-' else '+') :: (Nat.toDigits 10 e.natAbs ++ rest))
      = .ok (e, rest) := by
  have hpos : 0 < e.natAbs := by omega
  obtain ⟨d, cs, hD, _, _⟩ := toDigits_head e.natAbs hpos
  have hne : Nat.toDigits 10 e.natAbs ≠ [] := by rw [hD]; simp
  have ht := takeDigits_append _ rest (toDigits_isDigit e.natAbs) hrest
  have hv := decimalValue_toDigits e.natAbs
  by_cases hneg : e < 0
  · have hcast : ((e.natAbs : Nat) : Int) = -e := by omega
    simp only [hneg, if_true, parseExponent, parseExponentDigits, ht, hne, if_false]
    simp only [hv, hcast]
    simp
  · have hcast : ((e.natAbs : Nat) : Int) = e := by omega
    simp only [hneg, if_false, parseExponent, parseExponentDigits, ht, hne]
    simp only [hv, hcast]
    simp

theorem parseUnsigned_literal (negative : Bool) (cs : List Char) (d : Char)
    (ds t0 F t1 t2 : List Char) (E : Int) (s j : Nat) (n : Int)
    (htake : takeDigits cs = (d :: ds, t0)) (hlead : ¬ (d = '0' ∧ ds ≠ []))
    (hfrac : parseFraction t0 = .ok (F, t1)) (hexp : parseExponent t1 = .ok (E, t2))
    (hs : s % 10 ≠ 0) (hv : decimalValue (d :: ds ++ F) = s * 10 ^ j)
    (hn : E - F.length + j + (Nat.toDigits 10 s).length = n) :
    parseUnsigned negative cs = .ok (.number (.finite negative s n), t2) := by
  unfold parseUnsigned
  simp only [htake, hlead, if_false, hfrac, hexp]
  rw [numberOf_eq negative (d :: ds) F E s j hs hv, hn]


theorem parseUnsigned_exponent (negative : Bool) (s : Nat) (n : Int) (rest : List Char)
    (d sg : Char) (ds : List Char) (hD : Nat.toDigits 10 s = d :: ds) (hs : s % 10 ≠ 0)
    (hx : parseExponent ('e' :: sg :: (Nat.toDigits 10 (n - 1).natAbs ++ rest))
      = .ok (n - 1, rest)) :
    parseUnsigned negative
        ((match d :: ds with
          | [] => []
          | [d] => d :: 'e' :: sg :: Nat.toDigits 10 (n - 1).natAbs
          | d :: d1 :: ds =>
            d :: '.' :: (d1 :: ds ++ 'e' :: sg :: Nat.toDigits 10 (n - 1).natAbs)) ++ rest)
      = .ok (.number (.finite negative s n), rest) := by
  have hall : ∀ c ∈ d :: ds, isDigit c = true := by
    rw [← hD]; exact toDigits_isDigit s
  have hdd : isDigit d = true := hall d (List.mem_cons_self _ _)
  have hval : decimalValue (d :: ds) = s := by
    rw [← hD]; exact decimalValue_toDigits s
  have hk : (Nat.toDigits 10 s).length = ds.length + 1 := by rw [hD]; rfl
  cases ds with
  | nil =>
    simp only [List.cons_append]
    have ht : takeDigits ([d] ++ ('e' :: sg :: (Nat.toDigits 10 (n - 1).natAbs ++ rest)))
        = ([d], 'e' :: sg :: (Nat.toDigits 10 (n - 1).natAbs ++ rest)) := by
      apply takeDigits_append
      · intro c hc
        have : c = d := by simpa using hc
        rw [this]; exact hdd
      · intro c tl h
        have : c = 'e' := by simpa using (List.cons.inj h).1.symm
        rw [this]; rfl
    have hf : parseFraction ('e' :: sg :: (Nat.toDigits 10 (n - 1).natAbs ++ rest))
        = .ok ([], 'e' :: sg :: (Nat.toDigits 10 (n - 1).natAbs ++ rest)) := by
      apply parseFraction_none
      intro c tl h
      have : c = 'e' := by simpa using (List.cons.inj h).1.symm
      rw [this]; decide
    refine parseUnsigned_literal negative _ d [] _ [] _ rest (n - 1) s 0 n ht
      (fun h => h.2 rfl) hf hx hs ?_ ?_
    · rw [List.append_nil, hval]; simp
    · rw [hk]
      simp only [List.length_nil]
      push_cast
      omega
  | cons d1 ds1 =>
    have ht : takeDigits ([d] ++ ('.' :: ((d1 :: ds1) ++
        ('e' :: sg :: (Nat.toDigits 10 (n - 1).natAbs ++ rest)))))
        = ([d], '.' :: ((d1 :: ds1) ++
          ('e' :: sg :: (Nat.toDigits 10 (n - 1).natAbs ++ rest)))) := by
      apply takeDigits_append
      · intro c hc
        have : c = d := by simpa using hc
        rw [this]; exact hdd
      · intro c tl h
        have : c = '.' := by simpa using (List.cons.inj h).1.symm
        rw [this]; rfl
    have hf : parseFraction ('.' :: ((d1 :: ds1) ++
        ('e' :: sg :: (Nat.toDigits 10 (n - 1).natAbs ++ rest))))
        = .ok (d1 :: ds1, 'e' :: sg :: (Nat.toDigits 10 (n - 1).natAbs ++ rest)) := by
      apply parseFraction_digits _ _ (by simp)
      · intro c hc
        exact hall c (List.mem_cons_of_mem _ hc)
      · intro c tl h
        have : c = 'e' := by simpa using (List.cons.inj h).1.symm
        rw [this]; rfl
    have hshape : (d :: '.' :: (d1 :: ds1 ++ 'e' :: sg :: Nat.toDigits 10 (n - 1).natAbs)) ++ rest
        = [d] ++ ('.' :: ((d1 :: ds1) ++
          ('e' :: sg :: (Nat.toDigits 10 (n - 1).natAbs ++ rest)))) := by simp
    show parseUnsigned negative
      ((d :: '.' :: (d1 :: ds1 ++ 'e' :: sg :: Nat.toDigits 10 (n - 1).natAbs)) ++ rest) = _
    rw [hshape]
    refine parseUnsigned_literal negative _ d [] _ (d1 :: ds1) _ rest (n - 1) s 0 n ht
      (fun h => h.2 rfl) hf hx hs ?_ ?_
    · simpa using hval
    · rw [hk]
      simp only [List.length_cons]
      push_cast
      omega

theorem parseUnsigned_positiveToString (negative : Bool) (s : Nat) (n : Int)
    (rest : List Char) (hs : s % 10 ≠ 0) (hr : atDelimiter rest = true) :
    parseUnsigned negative (positiveToString s n ++ rest)
      = .ok (.number (.finite negative s n), rest) := by
  have hpos : 0 < s := by
    rcases Nat.eq_zero_or_pos s with h | h
    · subst h; simp at hs
    · exact h
  obtain ⟨d, ds, hD, hd0, hdd⟩ := toDigits_head s hpos
  have hall : ∀ c ∈ d :: ds, isDigit c = true := by
    rw [← hD]; exact toDigits_isDigit s
  have hval : decimalValue (d :: ds) = s := by
    rw [← hD]; exact decimalValue_toDigits s
  have hk : (Nat.toDigits 10 s).length = ds.length + 1 := by rw [hD]; rfl
  have hrd : ∀ c tl, rest = c :: tl → isDigit c = false :=
    fun c tl h => (atDelimiter_head rest hr c tl h).1
  have hfn : parseFraction rest = .ok ([], rest) :=
    parseFraction_none rest (fun c tl h => (atDelimiter_head rest hr c tl h).2.1)
  have hen : parseExponent rest = .ok (0, rest) :=
    parseExponent_none rest (fun c tl h => (atDelimiter_head rest hr c tl h).2.2)
  unfold positiveToString
  simp only [hD, List.length_cons]
  split_ifs with hA hB hC h
  · -- digits and zeros
    have ht : takeDigits ((d :: ds ++ zeros (n - (↑ds.length + 1)).toNat) ++ rest)
        = (d :: (ds ++ zeros (n - (↑ds.length + 1)).toNat), rest) := by
      apply takeDigits_append _ _ _ hrd
      intro c hc
      rcases List.mem_append.mp hc with hc | hc
      · exact hall c hc
      · exact zeros_isDigit _ c hc
    refine parseUnsigned_literal negative _ d _ rest [] rest rest 0 s
      (n - (↑ds.length + 1)).toNat n ht (fun h => hd0 h.1) hfn hen hs ?_ ?_
    · rw [List.append_nil]
      have := decimalValue_append_zeros (d :: ds) (n - (↑ds.length + 1)).toNat
      rw [hval] at this
      simpa using this
    · rw [hk]
      simp only [List.length_nil]
      push_cast
      omega
  · -- digits around a point
    obtain ⟨m, hm⟩ : ∃ m, n.toNat = m + 1 := ⟨n.toNat - 1, by omega⟩
    have hmk : m < ds.length := by push_cast at hA; omega
    rw [hm]
    simp only [List.take_succ_cons, List.drop_succ_cons]
    have ht : takeDigits ((d :: List.take m ds) ++ ('.' :: (List.drop m ds ++ rest)))
        = (d :: List.take m ds, '.' :: (List.drop m ds ++ rest)) := by
      apply takeDigits_append
      · intro c hc
        rcases List.mem_cons.mp hc with hc | hc
        · rw [hc]; exact hdd
        · exact hall c (List.mem_cons_of_mem _ (List.mem_of_mem_take hc))
      · intro c tl h
        have : c = '.' := by simpa using (List.cons.inj h).1.symm
        rw [this]; rfl
    have hf : parseFraction ('.' :: (List.drop m ds ++ rest)) = .ok (List.drop m ds, rest) := by
      apply parseFraction_digits _ _ _ _ hrd
      · intro h
        have := congrArg List.length h
        simp at this
        omega
      · intro c hc
        exact hall c (List.mem_cons_of_mem _ (List.mem_of_mem_drop hc))
    have hshape : d :: List.take m ds ++ '.' :: List.drop m ds ++ rest
        = (d :: List.take m ds) ++ ('.' :: (List.drop m ds ++ rest)) := by simp
    rw [hshape]
    refine parseUnsigned_literal negative _ d _ _ (List.drop m ds) rest rest 0 s 0 n ht
      (fun h => hd0 h.1) hf hen hs ?_ ?_
    · rw [List.cons_append, List.take_append_drop, hval]
      simp
    · rw [hk, List.length_drop]
      push_cast
      omega
  · -- zeros after the point
    have hz : ∀ c ∈ zeros (-n).toNat ++ d :: ds, isDigit c = true := by
      intro c hc
      rcases List.mem_append.mp hc with hc | hc
      · exact zeros_isDigit _ c hc
      · exact hall c hc
    have ht : takeDigits (['0'] ++ ('.' :: ((zeros (-n).toNat ++ d :: ds) ++ rest)))
        = (['0'], '.' :: ((zeros (-n).toNat ++ d :: ds) ++ rest)) := by
      apply takeDigits_append
      · intro c hc
        have : c = '0' := by simpa using hc
        rw [this]; rfl
      · intro c tl h
        have : c = '.' := by simpa using (List.cons.inj h).1.symm
        rw [this]; rfl
    have hf : parseFraction ('.' :: ((zeros (-n).toNat ++ d :: ds) ++ rest))
        = .ok (zeros (-n).toNat ++ d :: ds, rest) :=
      parseFraction_digits _ _ (by simp) hz hrd
    have hshape : '0' :: '.' :: (zeros (-n).toNat ++ d :: ds) ++ rest
        = ['0'] ++ ('.' :: ((zeros (-n).toNat ++ d :: ds) ++ rest)) := by simp
    rw [hshape]
    refine parseUnsigned_literal negative _ '0' [] _ (zeros (-n).toNat ++ d :: ds) rest rest 0
      s 0 n ht (fun h => h.2 rfl) hf hen hs ?_ ?_
    · have h1 : ['0'] ++ (zeros (-n).toNat ++ d :: ds) = zeros ((-n).toNat + 1) ++ d :: ds := by
        simp [zeros, List.replicate_succ]
      rw [h1, decimalValue_zeros_append, hval]
      simp
    · rw [hk]
      simp only [List.length_append, List.length_cons, zeros, List.length_replicate]
      push_cast
      omega
  · -- exponent, below zero
    have hne : n - 1 ≠ 0 := by omega
    have hx := parseExponent_digits (n - 1) rest hne hrd
    simp only [h, if_true] at hx
    exact parseUnsigned_exponent negative s n rest d '-' ds hD hs hx
  · -- exponent, above zero
    have hne : n - 1 ≠ 0 := by push_cast at hA; omega
    have hx := parseExponent_digits (n - 1) rest hne hrd
    simp only [h, if_false] at hx
    exact parseUnsigned_exponent negative s n rest d '+' ds hD hs hx


theorem positiveToString_head (s : Nat) (n : Int) (hs : s % 10 ≠ 0) :
    ∃ c cs, positiveToString s n = c :: cs ∧ isDigit c = true := by
  have hpos : 0 < s := by
    rcases Nat.eq_zero_or_pos s with h | h
    · subst h; simp at hs
    · exact h
  obtain ⟨d, ds, hD, _, hdd⟩ := toDigits_head s hpos
  unfold positiveToString
  simp only [hD, List.length_cons]
  split_ifs with hA hB hC h
  · exact ⟨d, _, rfl, hdd⟩
  · obtain ⟨m, hm⟩ : ∃ m, n.toNat = m + 1 := ⟨n.toNat - 1, by omega⟩
    rw [hm]
    exact ⟨d, _, rfl, hdd⟩
  · exact ⟨'0', _, rfl, rfl⟩
  · cases ds with
    | nil => exact ⟨d, _, rfl, hdd⟩
    | cons d1 ds1 => exact ⟨d, _, rfl, hdd⟩
  · cases ds with
    | nil => exact ⟨d, _, rfl, hdd⟩
    | cons d1 ds1 => exact ⟨d, _, rfl, hdd⟩

theorem numberToString_head (x : JSNumber) (hf : x.isFinite = true)
    (hw : wellFormed (.number x) = true) :
    ∃ c cs, numberToString x = c :: cs ∧ (isDigit c = true ∨ c = '-') := by
  cases x with
  | nan => simp [JSNumber.isFinite] at hf
  | posInf => simp [JSNumber.isFinite] at hf
  | negInf => simp [JSNumber.isFinite] at hf
  | zero negative => exact ⟨'0', [], rfl, Or.inl rfl⟩
  | finite negative s n =>
    have hs : s % 10 ≠ 0 := by
      simp only [wellFormed, Bool.and_eq_true, decide_eq_true_eq] at hw
      exact hw.1.1.1
    obtain ⟨c, cs, hc, hd⟩ := positiveToString_head s n hs
    cases negative with
    | true => exact ⟨'-', positiveToString s n, by simp [numberToString], Or.inr rfl⟩
    | false => exact ⟨c, cs, by simp [numberToString, hc], Or.inl hd⟩

theorem parseNumber_numberToString (x : JSNumber) (rest : List Char)
    (hf : x.isFinite = true) (hw : wellFormed (.number x) = true)
    (hz : noNegativeZero (.number x) = true) (h : atDelimiter rest = true) :
    parseNumber (numberToString x ++ rest) = .ok (.number x, rest) := by
  cases x with
  | nan => simp [JSNumber.isFinite] at hf
  | posInf => simp [JSNumber.isFinite] at hf
  | negInf => simp [JSNumber.isFinite] at hf
  | zero negative =>
    cases negative with
    | true => simp [noNegativeZero] at hz
    | false =>
      have ht : takeDigits (['0'] ++ rest) = (['0'], rest) :=
        takeDigits_append ['0'] rest (by intro c hc; have : c = '0' := by simpa using hc
                                         rw [this]; rfl)
          (fun c tl hr => (atDelimiter_head rest h c tl hr).1)
      have hfn : parseFraction rest = .ok ([], rest) :=
        parseFraction_none rest (fun c tl hr => (atDelimiter_head rest h c tl hr).2.1)
      have hen : parseExponent rest = .ok (0, rest) :=
        parseExponent_none rest (fun c tl hr => (atDelimiter_head rest h c tl hr).2.2)
      have hsh : numberToString (.zero false) ++ rest = '0' :: rest := rfl
      rw [hsh, parseNumber]
      simp only [List.singleton_append] at ht
      have h0 : ¬ ('0' = '-') := by decide
      simp only [h0, if_false, parseUnsigned, ht, hfn, hen]
      simp [numberOf, decimalValue]
  | finite negative s n =>
    have hs : s % 10 ≠ 0 := by
      simp only [wellFormed, Bool.and_eq_true, decide_eq_true_eq] at hw
      exact hw.1.1.1
    have hp := parseUnsigned_positiveToString
    cases negative with
    | true =>
      have hsh : numberToString (.finite true s n) ++ rest
          = '-' :: (positiveToString s n ++ rest) := by simp [numberToString]
      rw [hsh, parseNumber]
      simp only [if_true]
      exact hp true s n rest hs h
    | false =>
      obtain ⟨c, cs, hc, hd⟩ := positiveToString_head s n hs
      have hm : c ≠ '-' := by
        intro hx
        subst hx
        simp [isDigit] at hd
      have hsh : numberToString (.finite false s n) ++ rest
          = positiveToString s n ++ rest := by simp [numberToString]
      have := hp false s n rest hs h
      rw [hsh]
      rw [hc, List.cons_append] at this ⊢
      rw [parseNumber]
      simp only [hm, if_false]
      exact this

theorem number_head_facts (c : Char) (h : isDigit c = true ∨ c = '-') :
    isWhitespace c = false ∧ c ≠ '{' ∧ c ≠ '[' ∧ c ≠ '"' ∧ c ≠ 't' ∧ c ≠ 'f' ∧ c ≠ 'n' ∧
      c ≠ ']' ∧ c ≠ '}' := by
  rcases h with h | h
  · have hb : 48 ≤ c.toNat ∧ c.toNat ≤ 57 := by simpa [isDigit] using h
    refine ⟨?_, ?_, ?_, ?_, ?_, ?_, ?_, ?_, ?_⟩
    · simp only [isWhitespace, Bool.or_eq_false_iff, decide_eq_false_iff_not]
      omega
    all_goals
      intro hx
      subst hx
      revert hb
      decide
  · subst h
    decide

theorem parseValue_number (fuel : Nat) (x : JSNumber) (rest : List Char)
    (hf : x.isFinite = true) (hw : wellFormed (.number x) = true)
    (hz : noNegativeZero (.number x) = true) (h : atDelimiter rest = true) :
    parseValue (fuel + 1) (numberToString x ++ rest) = .ok (.number x, rest) := by
  have hp := parseNumber_numberToString x rest hf hw hz h
  obtain ⟨c, cs, hc, hd⟩ := numberToString_head x hf hw
  obtain ⟨h1, h2, h3, h4, h5, h6, h7, _, _⟩ := number_head_facts c hd
  rw [hc, List.cons_append] at hp ⊢
  rw [parseValue, skipWhitespace_cons c _ h1]
  simp only [h2, h3, h4, h5, h6, h7, if_false]
  exact hp

/-! ## Round trip: objects keep their properties -/

theorem hasKey_append (k : String) (ps qs : List (String × JSValue)) :
    hasKey k (ps ++ qs) = (hasKey k ps || hasKey k qs) := by
  induction ps with
  | nil => simp [hasKey]
  | cons p ps ih => simp [hasKey, ih, Bool.or_assoc]

theorem setProp_of_last (k : String) (v : JSValue) (acc : List (String × JSValue))
    (h : hasKey k acc = false) (hb : ∀ a ∈ acc, enumeratedBefore k a.1 = false) :
    setProp k v acc = acc ++ [(k, v)] := by
  induction acc with
  | nil => rfl
  | cons p ps ih =>
    simp only [hasKey, Bool.or_eq_false_iff, beq_eq_false_iff_ne, ne_eq] at h
    have hp := hb p (List.mem_cons_self _ _)
    simp [setProp, h.1, hp, ih h.2 (fun a ha => hb a (List.mem_cons_of_mem _ ha))]

theorem hasKey_of_mem (p : String × JSValue) (ps : List (String × JSValue)) (h : p ∈ ps) :
    hasKey p.1 ps = true := by
  induction ps with
  | nil => simp at h
  | cons q qs ih =>
    rcases List.mem_cons.mp h with h | h
    · subst h
      simp [hasKey]
    · simp [hasKey, ih h]

theorem foldl_setProp (ps : List (String × JSValue)) :
    ∀ acc : List (String × JSValue), wellFormedProps ps = true →
      (∀ p ∈ ps, hasKey p.1 acc = false ∧ ∀ a ∈ acc, enumeratedBefore p.1 a.1 = false) →
      ps.foldl (fun acc m => setProp m.1 m.2 acc) acc = acc ++ ps := by
  induction ps with
  | nil => intro acc _ _; simp
  | cons p ps ih =>
    intro acc hw hacc
    obtain ⟨k, v⟩ := p
    simp only [wellFormedProps, Bool.and_eq_true, Bool.not_eq_true', List.any_eq_false] at hw
    have hk := hacc (k, v) (List.mem_cons_self _ _)
    rw [List.foldl_cons, setProp_of_last k v acc hk.1 hk.2, ih (acc ++ [(k, v)]) hw.2]
    · simp
    · intro q hq
      have hq' := hacc q (List.mem_cons_of_mem _ hq)
      refine ⟨?_, ?_⟩
      · rw [hasKey_append, hq'.1]
        have hne : k ≠ q.1 := by
          intro hx
          have := hasKey_of_mem q ps hq
          rw [← hx, hw.1.1.1] at this
          exact Bool.noConfusion this
        simp [hasKey, hne]
      · intro a ha
        rcases List.mem_append.mp ha with ha | ha
        · exact hq'.2 a ha
        · have : a = (k, v) := by simpa using ha
          rw [this]
          simpa using hw.1.1.2 q hq

theorem mergeProps_wellFormed (ps : List (String × JSValue)) (h : wellFormedProps ps = true) :
    mergeProps ps = ps := by
  unfold mergeProps
  rw [foldl_setProp ps [] h (fun _ _ => ⟨rfl, fun _ ha => by simp at ha⟩)]
  rfl

/-! ## Round trip: values -/

theorem startsValue_cons (text : List Char) (h : startsValue text = true) :
    ∃ c cs, text = c :: cs ∧ isWhitespace c = false ∧ c ≠ ']' ∧ c ≠ '}' := by
  cases text with
  | nil => simp [startsValue] at h
  | cons c cs =>
    simp only [startsValue, Bool.and_eq_true, Bool.not_eq_true', bne_iff_ne, ne_eq] at h
    exact ⟨c, cs, rfl, h.1.1, h.1.2, h.2⟩

theorem joinComma_cons_of_startsValue (t : List Char) (parts : List (List Char))
    (h : startsValue (joinComma parts) = true) :
    joinComma (t :: parts) = t ++ ',' :: joinComma parts := by
  cases parts with
  | nil => simp [joinComma, startsValue] at h
  | cons y r => rw [joinComma]

theorem startsValue_append (t u : List Char) (h : startsValue t = true) :
    startsValue (t ++ u) = true := by
  cases t with
  | nil => simp [startsValue] at h
  | cons c cs => simpa [startsValue] using h

mutual
theorem roundtrip_value (v : JSValue) (hs : serializable v = true)
    (hw : wellFormed v = true) (hz : noNegativeZero v = true) :
    ∃ text, serializeJSONProperty v = .ok (some text) ∧ startsValue text = true ∧
      ∀ fuel rest, text.length < fuel → atDelimiter rest = true →
        parseValue fuel (text ++ rest) = .ok (v, rest) := by
  cases v with
  | undefined => simp [serializable] at hs
  | bigint i => simp [serializable] at hs
  | symbol r => simp [serializable] at hs
  | function r => simp [serializable] at hs
  | circular up => simp [serializable] at hs
  | null =>
    refine ⟨['n', 'u', 'l', 'l'], by rw [serializeJSONProperty], rfl, ?_⟩
    intro fuel rest hf _
    obtain ⟨f, rfl⟩ : ∃ f, fuel = f + 1 := ⟨fuel - 1, by simp at hf; omega⟩
    rfl
  | bool b =>
    cases b with
    | true =>
      refine ⟨['t', 'r', 'u', 'e'], by rw [serializeJSONProperty], rfl, ?_⟩
      intro fuel rest hf _
      obtain ⟨f, rfl⟩ : ∃ f, fuel = f + 1 := ⟨fuel - 1, by simp at hf; omega⟩
      rfl
    | false =>
      refine ⟨['f', 'a', 'l', 's', 'e'], by rw [serializeJSONProperty], rfl, ?_⟩
      intro fuel rest hf _
      obtain ⟨f, rfl⟩ : ∃ f, fuel = f + 1 := ⟨fuel - 1, by simp at hf; omega⟩
      rfl
  | number x =>
    have hf : x.isFinite = true := by simpa [serializable] using hs
    refine ⟨numberToString x, by simp [serializeJSONProperty, hf], ?_, ?_⟩
    · obtain ⟨c, cs, hc, hd⟩ := numberToString_head x hf hw
      obtain ⟨h1, _, _, _, _, _, _, h8, h9⟩ := number_head_facts c hd
      rw [hc]
      simp [startsValue, h1, h8, h9]
    · intro fuel rest hfu hr
      obtain ⟨f, rfl⟩ : ∃ f, fuel = f + 1 := ⟨fuel - 1, by omega⟩
      exact parseValue_number f x rest hf hw hz hr
  | string s =>
    refine ⟨quoteJSONString s, by rw [serializeJSONProperty], rfl, ?_⟩
    intro fuel rest hf _
    obtain ⟨f, rfl⟩ : ∃ f, fuel = f + 1 := ⟨fuel - 1, by omega⟩
    have ht : quoteJSONString s ++ rest = '"' :: (escapeChars s.data ++ '"' :: rest) := by
      simp [quoteJSONString]
    rw [ht, parseValue, skipWhitespace_cons _ _ (by decide)]
    simp [parseString_quoted]
  | array elems =>
    cases elems with
    | nil =>
      refine ⟨['[', ']'], by simp [serializeJSONProperty, serializeJSONArray, joinComma], rfl, ?_⟩
      intro fuel rest hf _
      obtain ⟨f, rfl⟩ : ∃ f, fuel = f + 1 := ⟨fuel - 1, by simp at hf; omega⟩
      rfl
    | cons e es =>
      rw [serializable] at hs
      rw [wellFormed] at hw
      rw [noNegativeZero] at hz
      obtain ⟨parts, hp, hst, hpp⟩ :=
        roundtrip_elems (e :: es) (List.cons_ne_nil _ _) hs hw hz
      refine ⟨'[' :: (joinComma parts ++ [']']), by simp [serializeJSONProperty, hp], rfl, ?_⟩
      intro fuel rest hf _
      obtain ⟨f, rfl⟩ : ∃ f, fuel = f + 1 := ⟨fuel - 1, by omega⟩
      obtain ⟨c, cs, hc, hws, hc1, _⟩ := startsValue_cons _ hst
      have ht : '[' :: (joinComma parts ++ [']']) ++ rest
          = '[' :: (joinComma parts ++ ']' :: rest) := by simp
      have hlen : (joinComma parts).length + 1 < f := by
        simp only [List.length_cons, List.length_append, List.length_nil] at hf
        omega
      have hx := hpp f rest hlen
      rw [ht, parseValue, skipWhitespace_cons _ _ (by decide)]
      rw [hc, List.cons_append] at hx ⊢
      simp only [skipWhitespace_cons c _ hws]
      simp [hc1, hx]
  | object props =>
    cases props with
    | nil =>
      refine ⟨['{', '}'], by simp [serializeJSONProperty, serializeJSONObject, joinComma], rfl, ?_⟩
      intro fuel rest hf _
      obtain ⟨f, rfl⟩ : ∃ f, fuel = f + 1 := ⟨fuel - 1, by simp at hf; omega⟩
      rfl
    | cons p ps =>
      rw [serializable] at hs
      rw [wellFormed] at hw
      rw [noNegativeZero] at hz
      obtain ⟨parts, hp, hst, hpp⟩ :=
        roundtrip_props (p :: ps) (List.cons_ne_nil _ _) hs hw hz
      refine ⟨'{' :: (joinComma parts ++ ['}']), by simp [serializeJSONProperty, hp], rfl, ?_⟩
      intro fuel rest hf _
      obtain ⟨f, rfl⟩ : ∃ f, fuel = f + 1 := ⟨fuel - 1, by omega⟩
      obtain ⟨c, cs, hc, hws, _, hc2⟩ := startsValue_cons _ hst
      have ht : '{' :: (joinComma parts ++ ['}']) ++ rest
          = '{' :: (joinComma parts ++ '}' :: rest) := by simp
      have hlen : (joinComma parts).length + 1 < f := by
        simp only [List.length_cons, List.length_append, List.length_nil] at hf
        omega
      have hx := hpp f rest hlen
      rw [ht, parseValue, skipWhitespace_cons _ _ (by decide)]
      rw [hc, List.cons_append] at hx ⊢
      simp only [skipWhitespace_cons c _ hws]
      simp [hc2, hx, mergeProps_wellFormed (p :: ps) hw]
theorem roundtrip_elems (es : List JSValue) (hne : es ≠ [])
    (hs : serializableElems es = true) (hw : wellFormedElems es = true)
    (hz : elemsNoNegativeZero es = true) :
    ∃ parts, serializeJSONArray es = .ok parts ∧ startsValue (joinComma parts) = true ∧
      ∀ fuel rest, (joinComma parts).length + 1 < fuel →
        parseElements fuel (joinComma parts ++ ']' :: rest) = .ok (es, rest) := by
  cases es with
  | nil => exact absurd rfl hne
  | cons e es =>
    simp only [serializableElems, Bool.and_eq_true] at hs
    simp only [wellFormedElems, Bool.and_eq_true] at hw
    simp only [elemsNoNegativeZero, Bool.and_eq_true] at hz
    obtain ⟨t, ht, hst, hpt⟩ := roundtrip_value e hs.1 hw.1 hz.1
    cases es with
    | nil =>
      refine ⟨[t], by simp [serializeJSONArray, ht], by simpa [joinComma] using hst, ?_⟩
      intro fuel rest hf
      obtain ⟨f, rfl⟩ : ∃ f, fuel = f + 1 := ⟨fuel - 1, by omega⟩
      simp only [joinComma] at hf ⊢
      rw [parseElements, hpt f (']' :: rest) (by omega) rfl]
      rfl
    | cons e2 es2 =>
      obtain ⟨parts, hp, hsp, hpp⟩ :=
        roundtrip_elems (e2 :: es2) (List.cons_ne_nil _ _) hs.2 hw.2 hz.2
      have hj := joinComma_cons_of_startsValue t parts hsp
      refine ⟨t :: parts, ?_, ?_, ?_⟩
      · rw [serializeJSONArray, ht]
        simp only [hp, Option.getD_some]
      · rw [hj]
        exact startsValue_append _ _ hst
      · intro fuel rest hf
        obtain ⟨f, rfl⟩ : ∃ f, fuel = f + 1 := ⟨fuel - 1, by omega⟩
        rw [hj] at hf ⊢
        simp only [List.length_append, List.length_cons] at hf
        have ha : t ++ ',' :: joinComma parts ++ ']' :: rest
            = t ++ ',' :: (joinComma parts ++ ']' :: rest) := by simp
        rw [ha, parseElements,
          hpt f (',' :: (joinComma parts ++ ']' :: rest)) (by omega) rfl]
        simp only [skipWhitespace_cons ',' _ (by decide), if_true]
        rw [hpp f rest (by omega)]
theorem roundtrip_props (ps : List (String × JSValue)) (hne : ps ≠ [])
    (hs : serializableProps ps = true) (hw : wellFormedProps ps = true)
    (hz : propsNoNegativeZero ps = true) :
    ∃ parts, serializeJSONObject ps = .ok parts ∧ startsValue (joinComma parts) = true ∧
      ∀ fuel rest, (joinComma parts).length + 1 < fuel →
        parseMembers fuel (joinComma parts ++ '}' :: rest) = .ok (ps, rest) := by
  cases ps with
  | nil => exact absurd rfl hne
  | cons p ps =>
    obtain ⟨k, v⟩ := p
    simp only [serializableProps, Bool.and_eq_true] at hs
    simp only [wellFormedProps, Bool.and_eq_true] at hw
    simp only [propsNoNegativeZero, Bool.and_eq_true] at hz
    obtain ⟨t, ht, hst, hpt⟩ := roundtrip_value v hs.1 hw.1.2 hz.1
    have hq : ∀ tail : List Char, quoteJSONString k ++ ':' :: t ++ tail
        = '"' :: (escapeChars k.data ++ '"' :: (':' :: (t ++ tail))) := by
      intro tail
      simp [quoteJSONString]
    have hsq : startsValue (quoteJSONString k ++ ':' :: t) = true := rfl
    cases ps with
    | nil =>
      refine ⟨[quoteJSONString k ++ ':' :: t], by simp [serializeJSONObject, ht],
        by simpa [joinComma] using hsq, ?_⟩
      intro fuel rest hf
      obtain ⟨f, rfl⟩ : ∃ f, fuel = f + 1 := ⟨fuel - 1, by omega⟩
      simp only [joinComma] at hf ⊢
      simp only [List.length_append, List.length_cons] at hf
      rw [hq, parseMembers, skipWhitespace_cons _ _ (by decide)]
      simp only [if_true, parseString_quoted, skipWhitespace_cons ':' _ (by decide)]
      rw [hpt f ('}' :: rest) (by omega) rfl]
      rfl
    | cons p2 ps2 =>
      obtain ⟨parts, hp, hsp, hpp⟩ :=
        roundtrip_props (p2 :: ps2) (List.cons_ne_nil _ _) hs.2 hw.2 hz.2
      have hj := joinComma_cons_of_startsValue (quoteJSONString k ++ ':' :: t) parts hsp
      refine ⟨(quoteJSONString k ++ ':' :: t) :: parts, ?_, ?_, ?_⟩
      · rw [serializeJSONObject, ht]
        simp only [hp]
      · rw [hj]
        exact startsValue_append _ _ hsq
      · intro fuel rest hf
        obtain ⟨f, rfl⟩ : ∃ f, fuel = f + 1 := ⟨fuel - 1, by omega⟩
        rw [hj] at hf ⊢
        simp only [List.length_append, List.length_cons] at hf
        have ha : quoteJSONString k ++ ':' :: t ++ ',' :: joinComma parts ++ '}' :: rest
            = quoteJSONString k ++ ':' :: t ++ (',' :: (joinComma parts ++ '}' :: rest)) := by
          simp
        rw [ha, hq, parseMembers, skipWhitespace_cons _ _ (by decide)]
        simp only [if_true, parseString_quoted, skipWhitespace_cons ':' _ (by decide)]
        rw [hpt f (',' :: (joinComma parts ++ '}' :: rest)) (by omega) rfl]
        simp only [skipWhitespace_cons ',' _ (by decide), if_true]
        rw [hpp f rest (by omega)]
end

theorem parse_stringify (v : JSValue) (hs : serializable v = true)
    (hw : wellFormed v = true) (hz : noNegativeZero v = true) :
    ∃ text, JSON.stringify v = .ok (some text) ∧ JSON.parse text = .ok v := by
  obtain ⟨t, ht, _, hp⟩ := roundtrip_value v hs hw hz
  refine ⟨String.mk t, by simp [JSON.stringify, ht], ?_⟩
  have hx := hp (t.length + 1) [] (by omega) rfl
  rw [List.append_nil] at hx
  simp [JSON.parse, hx, skipWhitespace]

/-! ## Structural equality is reflexive -/

theorem getProp_of_mem (ps : List (String × JSValue)) (hw : wellFormedProps ps = true) :
    ∀ p ∈ ps, getProp p.1 ps = some p.2 := by
  induction ps with
  | nil => intro p hp; simp at hp
  | cons q qs ih =>
    intro p hp
    obtain ⟨k, v⟩ := q
    simp only [wellFormedProps, Bool.and_eq_true, Bool.not_eq_true'] at hw
    rcases List.mem_cons.mp hp with h | h
    · subst h
      simp [getProp]
    · have hne : k ≠ p.1 := by
        intro hx
        have := hasKey_of_mem p qs h
        rw [← hx, hw.1.1.1] at this
        exact Bool.noConfusion this
      simp [getProp, hne, ih hw.2 p h]

mutual
theorem structEq_refl (v : JSValue) (hw : wellFormed v = true) : structEq v v = true := by
  cases v with
  | undefined => simp [structEq]
  | null => simp [structEq]
  | bool b => simp [structEq]
  | number n => simp [structEq]
  | string s => simp [structEq]
  | bigint i => simp [structEq]
  | symbol r => simp [structEq]
  | function r => simp [structEq]
  | circular up => simp [structEq]
  | array elems =>
    rw [wellFormed] at hw
    rw [structEq]
    exact structEqElems_refl elems hw
  | object props =>
    rw [wellFormed] at hw
    rw [structEq]
    simp only [beq_self_eq_true, Bool.true_and]
    exact structEqProps_of_getProp props props hw (getProp_of_mem props hw)
theorem structEqElems_refl (es : List JSValue) (hw : wellFormedElems es = true) :
    structEqElems es es = true := by
  cases es with
  | nil => simp [structEqElems]
  | cons e es =>
    simp only [wellFormedElems, Bool.and_eq_true] at hw
    rw [structEqElems]
    simp only [Bool.and_eq_true]
    exact ⟨structEq_refl e hw.1, structEqElems_refl es hw.2⟩
theorem structEqProps_of_getProp (ps qs : List (String × JSValue))
    (hw : wellFormedProps ps = true) (hsub : ∀ p ∈ ps, getProp p.1 qs = some p.2) :
    structEqProps ps qs = true := by
  cases ps with
  | nil => simp [structEqProps]
  | cons p ps =>
    obtain ⟨k, v⟩ := p
    simp only [wellFormedProps, Bool.and_eq_true] at hw
    rw [structEqProps, hsub (k, v) (List.mem_cons_self _ _)]
    simp only [Bool.and_eq_true]
    exact ⟨structEq_refl v hw.1.2,
      structEqProps_of_getProp ps qs hw.2 (fun p hp => hsub p (List.mem_cons_of_mem _ hp))⟩
end

/-! ## The record carries the event -/

/-- C1, as stated, fails: the event `{x: -0}` is serializable, the handler issues
one request for it with `Data = {"x":0}`, and `JSON.parse` of that text is
`{x: 0}` with the positive zero, which is not structurally equal to the
event. -/
theorem negative_zero_does_not_round_trip :
    serializable negativeZeroEvent = true ∧ wellFormed negativeZeroEvent = true ∧
      submitted acceptingKinesis negativeZeroEvent myStreamWorld =
        [⟨some "\x7b\"x\":0\x7d", "SendContactFlowEventKey", some "my-stream"⟩] ∧
      JSON.parse "\x7b\"x\":0\x7d" = .ok (.object [("x", .number (.zero false))]) ∧
      structEq (.object [("x", .number (.zero false))]) negativeZeroEvent = false :=
  ⟨rfl, rfl, by decide, rfl, rfl⟩

/-- C1, amended: for every serializable event (every value in it is one JSON
represents) that holds no negative zero, and every world, whatever its
`STREAM_NAME`, the handler issues exactly one request, and `JSON.parse` of its
`Data` returns a value structurally equal to the event. -/
theorem data_round_trips (kinesis : Kinesis) (event : JSValue) (w : World)
    (hs : serializable event = true) (hw : wellFormed event = true)
    (hz : noNegativeZero event = true) :
    ∃ text, submitted kinesis event w =
        [⟨some text, "SendContactFlowEventKey", w.env "STREAM_NAME"⟩] ∧
      ∃ v, JSON.parse text = .ok v ∧ structEq v event = true := by
  obtain ⟨text, ht, hp⟩ := parse_stringify event hs hw hz
  exact ⟨text, submitted_of_data kinesis event w _ ht, event, hp, structEq_refl event hw⟩

theorem data_round_trips_witness :
    serializable nestedEvent = true ∧ wellFormed nestedEvent = true ∧
      noNegativeZero nestedEvent = true ∧
      ∃ text, submitted acceptingKinesis nestedEvent myStreamWorld =
          [⟨some text, "SendContactFlowEventKey", myStreamWorld.env "STREAM_NAME"⟩] ∧
        ∃ v, JSON.parse text = .ok v ∧ structEq v nestedEvent = true :=
  ⟨rfl, rfl, rfl, data_round_trips acceptingKinesis nestedEvent myStreamWorld rfl rfl rfl⟩

/-! ## Partition key, stream name, result -/

/-- C2: every request that an invocation of the handler issues carries the
partition key "SendContactFlowEventKey", whatever the event, the environment
and the client. -/
theorem partitionKey_is_constant (kinesis : Kinesis) (event : JSValue) (w : World)
    (r : PutRecordInput) (h : r ∈ submitted kinesis event w) :
    r.PartitionKey = "SendContactFlowEventKey" := by
  obtain ⟨data, _, hr⟩ := mem_submitted kinesis event w r h
  rw [hr]

theorem partitionKey_is_constant_witness :
    (⟨some "\x7b\"contactId\":\"abc123\"\x7d", "SendContactFlowEventKey", some "my-stream"⟩ :
        PutRecordInput) ∈ submitted acceptingKinesis contactEvent myStreamWorld ∧
      (⟨some "\x7b\"contactId\":\"abc123\"\x7d", "SendContactFlowEventKey", some "my-stream"⟩ :
        PutRecordInput).PartitionKey = "SendContactFlowEventKey" :=
  ⟨by decide, partitionKey_is_constant acceptingKinesis contactEvent myStreamWorld _ (by decide)⟩

/-- C3: the stream name of a request is the value of `STREAM_NAME` in the
environment of the invocation that issues it, not the one of load time: when
the environment changes between two invocations of the loaded handler, each
request carries the value current at its own invocation. -/
theorem streamName_read_at_call_time (aws : AWS) (loadEnv env2 : String → Option String)
    (event1 event2 : JSValue) (w : World) (r1 r2 : PutRecordInput)
    (h1 : r1 ∈ submitted (aws.Kinesis loadEnv) event1 w)
    (h2 : r2 ∈ submitted (aws.Kinesis loadEnv) event2
      { (loadModule aws loadEnv event1 w).2 with env := env2 }) :
    r1.StreamName = w.env "STREAM_NAME" ∧ r2.StreamName = env2 "STREAM_NAME" := by
  obtain ⟨_, _, hr1⟩ := mem_submitted _ event1 w r1 h1
  obtain ⟨_, _, hr2⟩ := mem_submitted _ event2 _ r2 h2
  rw [hr1, hr2]
  exact ⟨rfl, rfl⟩

theorem streamName_read_at_call_time_witness :
    (⟨some "\x7b\"contactId\":\"abc123\"\x7d", "SendContactFlowEventKey", some "my-stream"⟩ :
        PutRecordInput).StreamName = myStreamWorld.env "STREAM_NAME" ∧
      (⟨some "\x7b\"a\":1,\"b\":2\x7d", "SendContactFlowEventKey", some "other-stream"⟩ :
        PutRecordInput).StreamName = streamEnv "other-stream" "STREAM_NAME" :=
  streamName_read_at_call_time acceptingAWS (streamEnv "load-time-stream")
    (streamEnv "other-stream") contactEvent eventAB myStreamWorld _ _ (by decide) (by decide)

/-- C4: when serialization of the event succeeds and the publish operation
succeeds with the acknowledgment `a`, the handler's promise is fulfilled with
`a` itself. -/
theorem returns_the_acknowledgment (kinesis : Kinesis) (event : JSValue) (w : World)
    (data : Option String) (a : PutRecordOutput)
    (hs : JSON.stringify event = .ok data)
    (hp : kinesis.putRecord w.calls ⟨data, "SendContactFlowEventKey", w.env "STREAM_NAME"⟩
      = .ok a) :
    (handler kinesis event w).1 = .fulfilled a := by
  rw [handler_of_data kinesis event w data hs]
  simp only [hp]

theorem returns_the_acknowledgment_witness :
    (handler acceptingKinesis contactEvent myStreamWorld).1 = .fulfilled someAck :=
  returns_the_acknowledgment acceptingKinesis contactEvent myStreamWorld
    (some "\x7b\"contactId\":\"abc123\"\x7d") someAck rfl rfl

/-- C5: when serialization of the event succeeds and the publish operation
fails with the error `err`, the handler's promise is rejected with `err`
itself, and the invocation has issued exactly one request (no retry). -/
theorem propagates_the_publish_error (kinesis : Kinesis) (event : JSValue) (w : World)
    (data : Option String) (err : JSError)
    (hs : JSON.stringify event = .ok data)
    (hp : kinesis.putRecord w.calls ⟨data, "SendContactFlowEventKey", w.env "STREAM_NAME"⟩
      = .error err) :
    (handler kinesis event w).1 = .rejected err ∧
      submitted kinesis event w = [⟨data, "SendContactFlowEventKey", w.env "STREAM_NAME"⟩] ∧
      (submitted kinesis event w).length = 1 := by
  refine ⟨?_, submitted_of_data kinesis event w data hs, ?_⟩
  · rw [handler_of_data kinesis event w data hs]
    simp only [hp]
  · rw [submitted_of_data kinesis event w data hs]
    rfl

theorem propagates_the_publish_error_witness :
    (handler failingKinesis contactEvent myStreamWorld).1 = .rejected throttled ∧
      submitted failingKinesis contactEvent myStreamWorld =
        [⟨some "\x7b\"contactId\":\"abc123\"\x7d", "SendContactFlowEventKey",
          myStreamWorld.env "STREAM_NAME"⟩] ∧
      (submitted failingKinesis contactEvent myStreamWorld).length = 1 :=
  propagates_the_publish_error failingKinesis contactEvent myStreamWorld
    (some "\x7b\"contactId\":\"abc123\"\x7d") throttled rfl rfl

/-- C7: for the event `{"contactId": "abc123"}` with `STREAM_NAME = "my-stream"`,
the handler issues one request, with `Data = {"contactId":"abc123"}` (compact),
`PartitionKey = "SendContactFlowEventKey"` and `StreamName = "my-stream"`, and
when the service acknowledges it the result is that acknowledgment, with its
sequence number. -/
theorem scenario_contactId (kinesis : Kinesis) (w : World) (a : PutRecordOutput)
    (henv : w.env "STREAM_NAME" = some "my-stream")
    (hp : kinesis.putRecord w.calls
      ⟨some "\x7b\"contactId\":\"abc123\"\x7d", "SendContactFlowEventKey", some "my-stream"⟩
      = .ok a) :
    submitted kinesis contactEvent w =
        [⟨some "\x7b\"contactId\":\"abc123\"\x7d", "SendContactFlowEventKey", some "my-stream"⟩] ∧
      ∃ result, (handler kinesis contactEvent w).1 = .fulfilled result ∧
        result.SequenceNumber = a.SequenceNumber := by
  have hs : JSON.stringify contactEvent = .ok (some "\x7b\"contactId\":\"abc123\"\x7d") := rfl
  refine ⟨?_, a, ?_, rfl⟩
  · rw [submitted_of_data kinesis contactEvent w _ hs, henv]
  · rw [handler_of_data kinesis contactEvent w _ hs, henv]
    simp only [hp]

theorem scenario_contactId_witness :
    submitted acceptingKinesis contactEvent myStreamWorld =
        [⟨some "\x7b\"contactId\":\"abc123\"\x7d", "SendContactFlowEventKey", some "my-stream"⟩] ∧
      ∃ result, (handler acceptingKinesis contactEvent myStreamWorld).1 = .fulfilled result ∧
        result.SequenceNumber = someAck.SequenceNumber :=
  scenario_contactId acceptingKinesis myStreamWorld someAck rfl rfl

/-! ## Serialization failures -/

mutual
theorem serializeJSONProperty_error (v : JSValue) (err : JSError)
    (h : serializeJSONProperty v = .error err) : ∃ msg, err = .TypeError msg := by
  cases v with
  | undefined => simp [serializeJSONProperty] at h
  | null => simp [serializeJSONProperty] at h
  | bool b => cases b <;> simp [serializeJSONProperty] at h
  | number n => cases n <;> simp [serializeJSONProperty] at h
  | string s => simp [serializeJSONProperty] at h
  | bigint i => exact ⟨_, by simpa [serializeJSONProperty] using h.symm⟩
  | symbol r => simp [serializeJSONProperty] at h
  | function r => simp [serializeJSONProperty] at h
  | circular up => exact ⟨_, by simpa [serializeJSONProperty] using h.symm⟩
  | array elems =>
    rw [serializeJSONProperty] at h
    cases hs : serializeJSONArray elems with
    | error e =>
      rw [hs] at h
      obtain ⟨msg, hm⟩ := serializeJSONArray_error elems e hs
      exact ⟨msg, by simpa [hm] using h.symm⟩
    | ok parts => rw [hs] at h; simp at h
  | object props =>
    rw [serializeJSONProperty] at h
    cases hs : serializeJSONObject props with
    | error e =>
      rw [hs] at h
      obtain ⟨msg, hm⟩ := serializeJSONObject_error props e hs
      exact ⟨msg, by simpa [hm] using h.symm⟩
    | ok parts => rw [hs] at h; simp at h
theorem serializeJSONArray_error (es : List JSValue) (err : JSError)
    (h : serializeJSONArray es = .error err) : ∃ msg, err = .TypeError msg := by
  cases es with
  | nil => simp [serializeJSONArray] at h
  | cons e es =>
    rw [serializeJSONArray] at h
    cases he : serializeJSONProperty e with
    | error e1 =>
      rw [he] at h
      obtain ⟨msg, hm⟩ := serializeJSONProperty_error e e1 he
      exact ⟨msg, by simpa [hm] using h.symm⟩
    | ok strP =>
      rw [he] at h
      cases hr : serializeJSONArray es with
      | error e2 =>
        rw [hr] at h
        obtain ⟨msg, hm⟩ := serializeJSONArray_error es e2 hr
        exact ⟨msg, by simpa [hm] using h.symm⟩
      | ok rest => rw [hr] at h; simp at h
theorem serializeJSONObject_error (ps : List (String × JSValue)) (err : JSError)
    (h : serializeJSONObject ps = .error err) : ∃ msg, err = .TypeError msg := by
  cases ps with
  | nil => simp [serializeJSONObject] at h
  | cons p ps =>
    obtain ⟨k, v⟩ := p
    rw [serializeJSONObject] at h
    cases hv : serializeJSONProperty v with
    | error e1 =>
      rw [hv] at h
      obtain ⟨msg, hm⟩ := serializeJSONProperty_error v e1 hv
      exact ⟨msg, by simpa [hm] using h.symm⟩
    | ok strP =>
      rw [hv] at h
      cases strP with
      | none => exact serializeJSONObject_error ps err h
      | some str =>
        cases hr : serializeJSONObject ps with
        | error e2 =>
          rw [hr] at h
          obtain ⟨msg, hm⟩ := serializeJSONObject_error ps e2 hr
          exact ⟨msg, by simpa [hm] using h.symm⟩
        | ok rest => rw [hr] at h; simp at h
end

mutual
theorem serializeJSONProperty_throws (v : JSValue)
    (h : containsCircularOrBigInt v = true) : ∃ err, serializeJSONProperty v = .error err := by
  cases v with
  | undefined => simp [containsCircularOrBigInt] at h
  | null => simp [containsCircularOrBigInt] at h
  | bool b => simp [containsCircularOrBigInt] at h
  | number n => simp [containsCircularOrBigInt] at h
  | string s => simp [containsCircularOrBigInt] at h
  | bigint i => exact ⟨_, by rw [serializeJSONProperty]⟩
  | symbol r => simp [containsCircularOrBigInt] at h
  | function r => simp [containsCircularOrBigInt] at h
  | circular up => exact ⟨_, by rw [serializeJSONProperty]⟩
  | array elems =>
    rw [containsCircularOrBigInt] at h
    obtain ⟨err, he⟩ := serializeJSONArray_throws elems h
    exact ⟨err, by rw [serializeJSONProperty, he]⟩
  | object props =>
    rw [containsCircularOrBigInt] at h
    obtain ⟨err, he⟩ := serializeJSONObject_throws props h
    exact ⟨err, by rw [serializeJSONProperty, he]⟩
theorem serializeJSONArray_throws (es : List JSValue)
    (h : elemsContainCircularOrBigInt es = true) : ∃ err, serializeJSONArray es = .error err := by
  cases es with
  | nil => simp [elemsContainCircularOrBigInt] at h
  | cons e es =>
    rw [elemsContainCircularOrBigInt, Bool.or_eq_true] at h
    rw [serializeJSONArray]
    cases he : serializeJSONProperty e with
    | error e1 => exact ⟨e1, rfl⟩
    | ok strP =>
      have hes : elemsContainCircularOrBigInt es = true := by
        rcases h with h | h
        · obtain ⟨err, hx⟩ := serializeJSONProperty_throws e h
          rw [he] at hx
          simp at hx
        · exact h
      obtain ⟨err, hr⟩ := serializeJSONArray_throws es hes
      exact ⟨err, by simp only [hr]⟩
theorem serializeJSONObject_throws (ps : List (String × JSValue))
    (h : propsContainCircularOrBigInt ps = true) : ∃ err, serializeJSONObject ps = .error err := by
  cases ps with
  | nil => simp [propsContainCircularOrBigInt] at h
  | cons p ps =>
    obtain ⟨k, v⟩ := p
    rw [propsContainCircularOrBigInt, Bool.or_eq_true] at h
    rw [serializeJSONObject]
    cases hv : serializeJSONProperty v with
    | error e1 => exact ⟨e1, rfl⟩
    | ok strP =>
      have hps : propsContainCircularOrBigInt ps = true := by
        rcases h with h | h
        · obtain ⟨err, hx⟩ := serializeJSONProperty_throws v h
          rw [hv] at hx
          simp at hx
        · exact h
      obtain ⟨err, hr⟩ := serializeJSONObject_throws ps hps
      cases strP with
      | none => exact ⟨err, hr⟩
      | some str => exact ⟨err, by simp only [hr]⟩
end

mutual
theorem serializeJSONProperty_returns (v : JSValue)
    (h : containsCircularOrBigInt v = false) : ∃ r, serializeJSONProperty v = .ok r := by
  cases v with
  | undefined => exact ⟨_, by rw [serializeJSONProperty]⟩
  | null => exact ⟨_, by rw [serializeJSONProperty]⟩
  | bool b => cases b <;> exact ⟨_, by rw [serializeJSONProperty]⟩
  | number n => cases n <;> simp [serializeJSONProperty]
  | string s => exact ⟨_, by rw [serializeJSONProperty]⟩
  | bigint i => simp [containsCircularOrBigInt] at h
  | symbol r => exact ⟨_, by rw [serializeJSONProperty]⟩
  | function r => exact ⟨_, by rw [serializeJSONProperty]⟩
  | circular up => simp [containsCircularOrBigInt] at h
  | array elems =>
    rw [containsCircularOrBigInt] at h
    obtain ⟨parts, hp⟩ := serializeJSONArray_returns elems h
    exact ⟨_, by rw [serializeJSONProperty, hp]⟩
  | object props =>
    rw [containsCircularOrBigInt] at h
    obtain ⟨parts, hp⟩ := serializeJSONObject_returns props h
    exact ⟨_, by rw [serializeJSONProperty, hp]⟩
theorem serializeJSONArray_returns (es : List JSValue)
    (h : elemsContainCircularOrBigInt es = false) : ∃ parts, serializeJSONArray es = .ok parts := by
  cases es with
  | nil => exact ⟨_, by rw [serializeJSONArray]⟩
  | cons e es =>
    rw [elemsContainCircularOrBigInt, Bool.or_eq_false_iff] at h
    obtain ⟨r, hr⟩ := serializeJSONProperty_returns e h.1
    obtain ⟨parts, hp⟩ := serializeJSONArray_returns es h.2
    exact ⟨r.getD ['n', 'u', 'l', 'l'] :: parts, by rw [serializeJSONArray, hr]; simp only [hp]⟩
theorem serializeJSONObject_returns (ps : List (String × JSValue))
    (h : propsContainCircularOrBigInt ps = false) :
    ∃ parts, serializeJSONObject ps = .ok parts := by
  cases ps with
  | nil => exact ⟨_, by rw [serializeJSONObject]⟩
  | cons p ps =>
    obtain ⟨k, v⟩ := p
    rw [propsContainCircularOrBigInt, Bool.or_eq_false_iff] at h
    obtain ⟨r, hr⟩ := serializeJSONProperty_returns v h.1
    obtain ⟨parts, hp⟩ := serializeJSONObject_returns ps h.2
    cases r with
    | none => exact ⟨parts, by rw [serializeJSONObject, hr]; exact hp⟩
    | some str =>
      exact ⟨(quoteJSONString k ++ ':' :: str) :: parts,
        by rw [serializeJSONObject, hr]; simp only [hp]⟩
end

theorem stringify_returns (event : JSValue) (h : containsCircularOrBigInt event = false) :
    ∃ data, JSON.stringify event = .ok data := by
  obtain ⟨r, hr⟩ := serializeJSONProperty_returns event h
  cases r with
  | none => exact ⟨none, by simp [JSON.stringify, hr]⟩
  | some cs => exact ⟨some (String.mk cs), by simp [JSON.stringify, hr]⟩

theorem stringify_throws (event : JSValue) (h : containsCircularOrBigInt event = true) :
    ∃ msg, JSON.stringify event = .error (.TypeError msg) := by
  obtain ⟨err, he⟩ := serializeJSONProperty_throws event h
  obtain ⟨msg, hm⟩ := serializeJSONProperty_error event err he
  exact ⟨msg, by simp [JSON.stringify, he, hm]⟩

/-- C6, as stated, fails: an event with a function-valued property contains a
value that JSON does not represent, yet the handler does not fail; the
property is left out of `Data` and one request is issued. -/
theorem function_property_does_not_fail :
    serializable callbackEvent = false ∧
      (handler acceptingKinesis callbackEvent myStreamWorld).1 = .fulfilled someAck ∧
      submitted acceptingKinesis callbackEvent myStreamWorld =
        [⟨some "\x7b\"contactId\":\"abc123\"\x7d", "SendContactFlowEventKey", some "my-stream"⟩] :=
  ⟨rfl, rfl, by decide⟩

/-- C6, amended: for every event that contains a circular reference or a BigInt,
the handler's promise is rejected with the TypeError that `JSON.stringify`
throws, the world is left as it was and no request is issued. -/
theorem circular_or_bigint_fails_before_publish (kinesis : Kinesis) (event : JSValue)
    (w : World) (h : containsCircularOrBigInt event = true) :
    ∃ msg, JSON.stringify event = .error (.TypeError msg) ∧
      handler kinesis event w = (.rejected (.TypeError msg), w) ∧
      (submitted kinesis event w).length = 0 := by
  obtain ⟨msg, hm⟩ := stringify_throws event h
  refine ⟨msg, hm, handler_of_throw kinesis event w _ hm, ?_⟩
  rw [submitted_of_throw kinesis event w _ hm]
  rfl

theorem circular_or_bigint_fails_before_publish_witness :
    ∃ msg, JSON.stringify (.array [.null, .object [("total", .bigint 7)]])
        = .error (.TypeError msg) ∧
      handler acceptingKinesis (.array [.null, .object [("total", .bigint 7)]]) myStreamWorld
        = (.rejected (.TypeError msg), myStreamWorld) ∧
      (submitted acceptingKinesis (.array [.null, .object [("total", .bigint 7)]])
        myStreamWorld).length = 0 :=
  circular_or_bigint_fails_before_publish acceptingKinesis
    (.array [.null, .object [("total", .bigint 7)]]) myStreamWorld rfl

/-- C8, as stated, fails: for an event that refers to itself, serialization
throws and the invocation issues no request at all. -/
theorem circular_event_issues_no_request :
    (∃ msg, (handler acceptingKinesis circularEvent myStreamWorld).1
        = .rejected (.TypeError msg)) ∧
      (submitted acceptingKinesis circularEvent myStreamWorld).length = 0 :=
  ⟨⟨_, rfl⟩, by decide⟩

/-- C8, amended: an invocation issues exactly one request when serialization of
the event returns, and none when it throws; in both cases the environment is
left as it was and the requests issued earlier stay in the log. -/
theorem one_request_unless_serialization_throws (kinesis : Kinesis) (event : JSValue)
    (w : World) :
    (submitted kinesis event w).length =
        (match JSON.stringify event with
         | .ok _ => 1
         | .error _ => 0) ∧
      (handler kinesis event w).2.env = w.env ∧
      (handler kinesis event w).2.calls = w.calls ++ submitted kinesis event w := by
  cases hs : JSON.stringify event with
  | error err =>
    rw [submitted_of_throw kinesis event w err hs, handler_of_throw kinesis event w err hs]
    simp
  | ok data =>
    rw [submitted_of_data kinesis event w data hs, handler_of_data kinesis event w data hs]
    simp

/-- C9: for every event that is an object, an array or a primitive JSON has a
text for, every request the handler issues carries in `Data` a string, the
serialization `JSON.stringify(event)`, and not `undefined`. -/
theorem data_is_a_string (kinesis : Kinesis) (event : JSValue) (w : World)
    (r : PutRecordInput) (hrep : representable event = true)
    (h : r ∈ submitted kinesis event w) :
    ∃ text, r.Data = some text ∧ JSON.stringify event = .ok (some text) := by
  obtain ⟨data, hs, hr⟩ := mem_submitted kinesis event w r h
  cases data with
  | some text => exact ⟨text, by rw [hr], hs⟩
  | none =>
    exfalso
    unfold JSON.stringify at hs
    cases event with
    | undefined => simp [representable] at hrep
    | symbol r => simp [representable] at hrep
    | function r => simp [representable] at hrep
    | null => simp [serializeJSONProperty] at hs
    | bool b => cases b <;> simp [serializeJSONProperty] at hs
    | number n => cases n <;> simp [serializeJSONProperty] at hs
    | string s => simp [serializeJSONProperty] at hs
    | bigint i => simp [serializeJSONProperty] at hs
    | circular up => simp [serializeJSONProperty] at hs
    | array elems =>
      rw [serializeJSONProperty] at hs
      cases hx : serializeJSONArray elems <;> rw [hx] at hs <;> simp at hs
    | object props =>
      rw [serializeJSONProperty] at hs
      cases hx : serializeJSONObject props <;> rw [hx] at hs <;> simp at hs

theorem data_is_a_string_witness :
    ∃ text, (⟨some "\x7b\"contactId\":\"abc123\"\x7d", "SendContactFlowEventKey",
        some "my-stream"⟩ : PutRecordInput).Data = some text ∧
      JSON.stringify callbackEvent = .ok (some text) :=
  data_is_a_string acceptingKinesis callbackEvent myStreamWorld _ rfl (by decide)

/-- C10, as stated, fails: the events `{a: 1, b: 2}` and `{b: 2, a: 1}` are
structurally equal, yet in the same world the requests issued for them differ
(in `Data`). -/
theorem key_order_changes_the_request :
    structEq eventAB eventBA = true ∧
      submitted acceptingKinesis eventAB myStreamWorld =
        [⟨some "\x7b\"a\":1,\"b\":2\x7d", "SendContactFlowEventKey", some "my-stream"⟩] ∧
      submitted acceptingKinesis eventBA myStreamWorld =
        [⟨some "\x7b\"b\":2,\"a\":1\x7d", "SendContactFlowEventKey", some "my-stream"⟩] ∧
      submitted acceptingKinesis eventAB myStreamWorld ≠
        submitted acceptingKinesis eventBA myStreamWorld :=
  ⟨rfl, by decide, by decide, by decide⟩

/-- C10, amended: the requests an invocation issues are a function of the event,
as the tree of its values with the properties in their order, and of the value
of `STREAM_NAME` only: two invocations on the same event in worlds that agree
on `STREAM_NAME` issue the same requests, whatever the other variables, the
requests issued earlier and the clients. -/
theorem request_depends_on_event_and_stream_name (kinesis1 kinesis2 : Kinesis)
    (event : JSValue) (w1 w2 : World)
    (h : w1.env "STREAM_NAME" = w2.env "STREAM_NAME") :
    submitted kinesis1 event w1 = submitted kinesis2 event w2 := by
  cases hs : JSON.stringify event with
  | error err =>
    rw [submitted_of_throw kinesis1 event w1 err hs, submitted_of_throw kinesis2 event w2 err hs]
  | ok data =>
    rw [submitted_of_data kinesis1 event w1 data hs, submitted_of_data kinesis2 event w2 data hs, h]

theorem request_depends_on_event_and_stream_name_witness :
    myStreamWorld.env "STREAM_NAME" = laterWorld.env "STREAM_NAME" ∧
      myStreamWorld.env "AWS_REGION" ≠ laterWorld.env "AWS_REGION" ∧
      submitted acceptingKinesis contactEvent myStreamWorld =
        submitted failingKinesis contactEvent laterWorld :=
  ⟨rfl, by decide,
    request_depends_on_event_and_stream_name acceptingKinesis failingKinesis contactEvent
      myStreamWorld laterWorld rfl⟩

end SendContactFlowEvent
